import Mathlib

/-!
The UCI engine adapter of fast-chess (`src/engines/uci_engine.cpp`)

A shallow embedding of `fast_chess::UciEngine` and theorems about the commands it
builds, the transcript it parses and the handshake it performs.

* `std::string` is `String`, `std::vector<T>` is `List T`.
* The integer fields of `TimeControl` and `Limit` are `Int`; `operator<<` on them
  is the decimal rendering `toString`.
* The process channel (base class `Process`) is an explicit state: the trace of the
  operations issued so far plus the timed-out flag, answered by an environment `Env`.
* A C++ exception is an `Except.error`; the state reached when it is thrown is
  returned next to it.
-/

namespace fast_chess

/-! ## Data model -/

/-- The side to move, `chess::Color` (declared outside this translation unit). -/
inductive Color where
  | WHITE
  | BLACK
  deriving DecidableEq, Repr

/-- The clock of one side, `TimeControl` (declared outside this translation unit; the
fields are the ones `buildGoInput` reads). -/
structure TimeControl where
  moves : Int
  time : Int
  increment : Int
  fixed_time : Int
  deriving DecidableEq, Repr

/-- The search limits of an engine, `config_.limit`. -/
structure Limit where
  nodes : Int
  plies : Int
  deriving DecidableEq, Repr

/-- The launch description of one engine, `EngineConfiguration`. The options are kept in
the order in which the range-for of `startEngine` visits them. -/
structure EngineConfiguration where
  name : String
  dir : String
  cmd : String
  options : List (String × String)
  limit : Limit
  deriving DecidableEq, Repr

/-! ## Command construction -/

/-- `UciEngine::buildPositionInput`. -/
def buildPositionInput (moves : List String) (fen : String) : String :=
  let position := if fen = "startpos" then "position startpos" else "position fen " ++ fen
  if moves ≠ [] then
    moves.foldl (fun position move => position ++ (" " ++ move)) (position ++ " moves")
  else
    position

/-- `UciEngine::buildGoInput`: the string stream is threaded through the successive
conditional insertions. -/
def buildGoInput (config_ : EngineConfiguration) (stm : Color) (tc tc_2 : TimeControl) :
    String :=
  let input := "go"
  let input :=
    if config_.limit.nodes ≠ 0 then input ++ " nodes " ++ toString config_.limit.nodes
    else input
  let input :=
    if config_.limit.plies ≠ 0 then input ++ " depth " ++ toString config_.limit.plies
    else input
  if tc.fixed_time ≠ 0 then
    input ++ " movetime " ++ toString tc.fixed_time
  else
    let white := if stm = Color.WHITE then tc else tc_2
    let black := if stm = Color.WHITE then tc_2 else tc
    let input :=
      if tc.time ≠ 0 then
        input ++ " wtime " ++ toString white.time ++ " btime " ++ toString black.time
      else input
    let input :=
      if tc.increment ≠ 0 then
        input ++ " winc " ++ toString white.increment ++ " binc " ++ toString black.increment
      else input
    let input :=
      if tc.moves ≠ 0 then input ++ " movestogo " ++ toString tc.moves
      else input
    input

/-! ## `str_utils` (helper.hpp) -/

namespace str_utils

/-- Modelled from the spec: the segments of a character sequence between occurrences of
the delimiter, for `str_utils::splitString` of helper.hpp (not part of this translation
unit). A segment is closed by each delimiter; the characters after the last delimiter
form a final segment when there are any (the `std::getline` loop). -/
def splitChars (delimiter : Char) : List Char → List (List Char)
  | [] => []
  | c :: cs =>
    if c = delimiter then [] :: splitChars delimiter cs
    else
      match splitChars delimiter cs with
      | [] => [[c]]
      | segment :: seglist => (c :: segment) :: seglist

/-- Modelled from the spec: `str_utils::splitString` of helper.hpp, the tokens of a line
("whitespace-separated tokens"; every call site passes the space character). -/
def splitString (string : String) (delimiter : Char) : List String :=
  (splitChars delimiter string.data).map String.mk

/-- Modelled from the spec: `str_utils::findElement<std::string>` of helper.hpp, "the value
following the token": the token right after the first occurrence of `needle`, nothing when
`needle` does not occur or is not followed by a token. -/
def findElement (haystack : List String) (needle : String) : Option String :=
  match haystack with
  | [] => none
  | token :: rest => if token = needle then rest.head? else findElement rest needle

/-- The white space `std::stoi` skips before the number (`std::isspace`): space, tab,
line feed, vertical tab, form feed and carriage return. -/
def isspace (c : Char) : Bool :=
  c = ' ' || c = '\t' || c = '\n' || c = '\x0b' || c = '\x0c' || c = '\r'

/-- The value of a run of decimal digits, most significant first. -/
def digitsValue (digits : List Char) : Nat :=
  digits.foldl (fun acc c => acc * 10 + (c.toNat - '0'.toNat)) 0

/-- The failure modes of the numeric conversion. -/
inductive ConversionError where
  | invalid_argument
  | out_of_range
  deriving DecidableEq, Repr

/-- Modelled from the spec: the numeric conversion `findElement<int>` applies to the
token it found ("its following numeric value"), the decimal reading of `std::stoi`:
leading white space is skipped, an optional sign and the longest run of digits are read,
the rest of the token is ignored; a token without digits or a value that does not fit
`int` is an error. -/
def stoi (token : String) : Except ConversionError Int :=
  let cs := token.data.dropWhile isspace
  let negative := cs.head? = some '-'
  let cs := if cs.head? = some '-' ∨ cs.head? = some '+' then cs.tail else cs
  let digits := cs.takeWhile Char.isDigit
  if digits = [] then Except.error ConversionError.invalid_argument
  else
    let value : Int := if negative then -(digitsValue digits : Int) else digitsValue digits
    if -(2 : Int) ^ 31 ≤ value ∧ value < (2 : Int) ^ 31 then Except.ok value
    else Except.error ConversionError.out_of_range

/-- Modelled from the spec: `str_utils::findElement<int>` of helper.hpp: the token found by
`findElement`, converted to a number; the conversion error is raised to the caller. -/
def findElementInt (haystack : List String) (needle : String) :
    Except ConversionError (Option Int) :=
  match findElement haystack needle with
  | none => Except.ok none
  | some token =>
    match stoi token with
    | Except.ok value => Except.ok (some value)
    | Except.error e => Except.error e

end str_utils

/-! ## The process channel -/

/-- What `UciEngine` can throw. -/
inductive EngineError where
  /-- The `std::runtime_error` of `startEngine`. -/
  | runtime_error (what : String)
  /-- An exception raised by the process channel and rethrown by `readEngine` or
  `writeEngine`. -/
  | channel
  /-- `std::optional::value()` on an empty optional. -/
  | bad_optional_access
  /-- An exception of the numeric conversion. -/
  | conversion (e : str_utils.ConversionError)
  /-- An element access outside the transcript (`back()` of an empty vector, an index
  that is not below `size()`). -/
  | out_of_bounds
  deriving DecidableEq, Repr

/-- The message of the exception `startEngine` throws. -/
def pingWarning : String := "Warning: Something went wrong when pinging the engine."

/-- One operation issued on the process channel. -/
inductive Event where
  | init (command name : String)
  | kill
  | write (input : String)
  | read (last_word : String) (timeout_threshold : Int)
  deriving DecidableEq, Repr

/-- What a completed `readProcess` hands back: the lines buffered so far and whether the
deadline passed before the marker was seen. -/
structure ReadResult where
  lines : List String
  timedOut : Bool
  deriving DecidableEq, Repr

/-- Modelled from the spec: the child process and the operating system behind the
ProcessChannel (class `Process`, not part of this translation unit). Each answer is a
function of the operations issued so far, the one being answered included. -/
structure Env where
  /-- Whether the `initProcess` ending the trace spawns the process. -/
  launches : List Event → Bool
  /-- `isAlive()` after the trace. -/
  alive : List Event → Bool
  /-- Whether the `writeProcess` ending the trace succeeds. -/
  accepts : List Event → Bool
  /-- The outcome of the `readProcess` ending the trace; `none` is a channel failure. -/
  answer : List Event → Option ReadResult

/-- Modelled from the spec: the state of the ProcessChannel (class `Process`): the
operations issued so far, oldest first, and the timed-out flag. -/
structure Process where
  trace : List Event
  timeout_ : Bool
  deriving DecidableEq, Repr

namespace Process

/-- Modelled from the spec: `Process::initProcess`, "spawns a child process ...; fails
with a LaunchError if the executable cannot be found or spawned". -/
def initProcess (env : Env) (command name : String) (p : Process) :
    Except EngineError Unit × Process :=
  let p' : Process := { p with trace := p.trace ++ [Event.init command name] }
  if env.launches p'.trace then (Except.ok (), p') else (Except.error EngineError.channel, p')

/-- Modelled from the spec: `Process::killProcess`, "forcibly terminates and reaps the
process". -/
def killProcess (p : Process) : Process :=
  { p with trace := p.trace ++ [Event.kill] }

/-- Modelled from the spec: `Process::isAlive`, "reports whether the child process is
still running (non-blocking check)". -/
def isAlive (env : Env) (p : Process) : Bool :=
  env.alive p.trace

/-- Modelled from the spec: `Process::timeout`, the timed-out flag of the last read. -/
def timeout (p : Process) : Bool :=
  p.timeout_

/-- Modelled from the spec: `Process::writeProcess`, "writes to the child's input; fails
with BrokenPipeError if the process has exited". -/
def writeProcess (env : Env) (input : String) (p : Process) :
    Except EngineError Unit × Process :=
  let p' : Process := { p with trace := p.trace ++ [Event.write input] }
  if env.accepts p'.trace then (Except.ok (), p') else (Except.error EngineError.channel, p')

/-- Modelled from the spec: `Process::readProcess`, "reads lines until one line's tokens
contain the marker, or until the timeout elapses; on timeout it sets an internal
timed-out flag and returns whatever was buffered so far rather than raising". -/
def readProcess (env : Env) (last_word : String) (timeout_threshold : Int) (p : Process) :
    Except EngineError (List String) × Process :=
  let trace := p.trace ++ [Event.read last_word timeout_threshold]
  match env.answer trace with
  | some r => (Except.ok r.lines, { trace := trace, timeout_ := r.timedOut })
  | none => (Except.error EngineError.channel, { p with trace := trace })

end Process

/-- The payloads of the write operations of a trace, oldest first. -/
def writes : List Event → List String
  | [] => []
  | Event.write input :: rest => input :: writes rest
  | _ :: rest => writes rest

/-- The read operations of a trace, oldest first. -/
def reads : List Event → List (String × Int)
  | [] => []
  | Event.read last_word timeout_threshold :: rest => (last_word, timeout_threshold) :: reads rest
  | _ :: rest => reads rest

/-! ## The engine adapter -/

/-- The state of a `UciEngine`: its configuration, the transcript of the last read, the
ping time (a constant of the class declaration) and the `Process` base object. -/
structure UciEngine where
  config_ : EngineConfiguration
  output_ : List String
  ping_time_ : Int
  process : Process
  deriving DecidableEq, Repr

namespace UciEngine

/-- `UciEngine::writeEngine`: hands `input + "\n"` to the channel; an exception of the
channel is logged and thrown again. -/
def writeEngine (env : Env) (input : String) (e : UciEngine) :
    Except EngineError Unit × UciEngine :=
  match Process.writeProcess env (input ++ "\n") e.process with
  | (Except.ok (), p) => (Except.ok (), { e with process := p })
  | (Except.error err, p) => (Except.error err, { e with process := p })

/-- `UciEngine::readEngine`: clears the transcript, then stores and returns what the
channel read; an exception of the channel is logged and thrown again. -/
def readEngine (env : Env) (last_word : String) (timeout_threshold : Int) (e : UciEngine) :
    Except EngineError (List String) × UciEngine :=
  let e := { e with output_ := [] }
  match Process.readProcess env last_word timeout_threshold e.process with
  | (Except.ok lines, p) => (Except.ok lines, { e with output_ := lines, process := p })
  | (Except.error err, p) => (Except.error err, { e with process := p })

/-- `UciEngine::isResponsive`. -/
def isResponsive (env : Env) (threshold : Int) (e : UciEngine) :
    Except EngineError Bool × UciEngine :=
  if !Process.isAlive env e.process then (Except.ok false, e)
  else
    match writeEngine env "isready" e with
    | (Except.error err, e) => (Except.error err, e)
    | (Except.ok (), e) =>
      match readEngine env "readyok" threshold e with
      | (Except.error err, e) => (Except.error err, e)
      | (Except.ok _, e) => (Except.ok (!Process.timeout e.process), e)

/-- `UciEngine::sendUciNewGame`. -/
def sendUciNewGame (env : Env) (e : UciEngine) : Except EngineError Bool × UciEngine :=
  match writeEngine env "ucinewgame" e with
  | (Except.error err, e) => (Except.error err, e)
  | (Except.ok (), e) => isResponsive env e.ping_time_ e

/-- `UciEngine::sendUci`. -/
def sendUci (env : Env) (e : UciEngine) : Except EngineError Unit × UciEngine :=
  writeEngine env "uci" e

/-- `UciEngine::readUci`; `timeout_threshold` is the default argument of `readEngine`
(given in the class declaration). -/
def readUci (env : Env) (timeout_threshold : Int) (e : UciEngine) :
    Except EngineError Bool × UciEngine :=
  match readEngine env "uciok" timeout_threshold e with
  | (Except.error err, e) => (Except.error err, e)
  | (Except.ok _, e) => (Except.ok (!Process.timeout e.process), e)

/-- `UciEngine::sendQuit`. -/
def sendQuit (env : Env) (e : UciEngine) : Except EngineError Unit × UciEngine :=
  writeEngine env "quit" e

/-- `UciEngine::sendSetoption`. -/
def sendSetoption (env : Env) (name value : String) (e : UciEngine) :
    Except EngineError Unit × UciEngine :=
  writeEngine env ("setoption name " ++ name ++ " value " ++ value) e

/-- The loop `for (const auto &option : config_.options) sendSetoption(...)` of
`startEngine`. -/
def sendOptions (env : Env) : List (String × String) → UciEngine →
    Except EngineError Unit × UciEngine
  | [], e => (Except.ok (), e)
  | option :: rest, e =>
    match sendSetoption env option.1 option.2 e with
    | (Except.error err, e) => (Except.error err, e)
    | (Except.ok (), e) => sendOptions env rest e

/-- `UciEngine::startEngine`; `timeout_threshold` is the default argument of `readEngine`.
The condition `!readUci() && !isResponsive(60000)` evaluates its right operand only when
the left one holds. -/
def startEngine (env : Env) (timeout_threshold : Int) (e : UciEngine) :
    Except EngineError Unit × UciEngine :=
  match Process.initProcess env (e.config_.dir ++ e.config_.cmd) e.config_.name e.process with
  | (Except.error err, p) => (Except.error err, { e with process := p })
  | (Except.ok (), p) =>
    match sendUci env { e with process := p } with
    | (Except.error err, e) => (Except.error err, e)
    | (Except.ok (), e) =>
      match readUci env timeout_threshold e with
      | (Except.error err, e) => (Except.error err, e)
      | (Except.ok true, e) => sendOptions env e.config_.options e
      | (Except.ok false, e) =>
        match isResponsive env 60000 e with
        | (Except.error err, e) => (Except.error err, e)
        | (Except.ok true, e) => sendOptions env e.config_.options e
        | (Except.ok false, e) => (Except.error (EngineError.runtime_error pingWarning), e)

/-- `UciEngine::restartEngine`. -/
def restartEngine (env : Env) (e : UciEngine) : Except EngineError Unit × UciEngine :=
  match Process.initProcess env (e.config_.dir ++ e.config_.cmd) e.config_.name
      (Process.killProcess e.process) with
  | (r, p) => (r, { e with process := p })

/-- `UciEngine::bestmove`: `output_.back()` is split on spaces and the token after
"bestmove" is returned; `.value()` throws when there is none. -/
def bestmove (e : UciEngine) : Except EngineError String :=
  match e.output_.getLast? with
  | none => Except.error EngineError.out_of_bounds
  | some line =>
    match str_utils.findElement (str_utils.splitString line ' ') "bestmove" with
    | some move => Except.ok move
    | none => Except.error EngineError.bad_optional_access

/-- The index `output_.size() - 2` of `lastInfo`, computed in the 64-bit unsigned
`size_t`. -/
def lastInfoIndex (e : UciEngine) : Nat :=
  (e.output_.length + 2 ^ 64 - 2) % 2 ^ 64

/-- `UciEngine::lastInfo`. -/
def lastInfo (e : UciEngine) : Except EngineError (List String) :=
  match e.output_[lastInfoIndex e]? with
  | none => Except.error EngineError.out_of_bounds
  | some line => Except.ok (str_utils.splitString line ' ')

/-- `UciEngine::lastScoreType`. -/
def lastScoreType (e : UciEngine) : Except EngineError String :=
  match lastInfo e with
  | Except.error err => Except.error err
  | Except.ok info => Except.ok ((str_utils.findElement info "score").getD "cp")

/-- `UciEngine::lastScore`. -/
def lastScore (e : UciEngine) : Except EngineError Int :=
  match lastInfo e, lastScoreType e with
  | Except.error err, _ => Except.error err
  | _, Except.error err => Except.error err
  | Except.ok info, Except.ok scoreType =>
    match str_utils.findElementInt info scoreType with
    | Except.error c => Except.error (EngineError.conversion c)
    | Except.ok value => Except.ok (value.getD 0)

/-- `UciEngine::output`. -/
def output (e : UciEngine) : List String := e.output_

/-- `UciEngine::timedout`. -/
def timedout (e : UciEngine) : Bool := Process.timeout e.process

/-- `UciEngine::getConfig`. -/
def getConfig (e : UciEngine) : EngineConfiguration := e.config_

/-- `UciEngine::loadConfig`. -/
def loadConfig (config : EngineConfiguration) (e : UciEngine) : UciEngine :=
  { e with config_ := config }

end UciEngine

end fast_chess

/-! ## Command-line helpers (`CMD::Options`) -/

namespace CMD

namespace Options

/-- Modelled from the spec: the character comparison behind `CMD::Options::startsWith`
(its definition is not among the files at hand; tests/functions_test.h calls it): the
needle is matched against the haystack from its first character on. -/
def startsWithChars : List Char → List Char → Bool
  | _, [] => true
  | [], _ :: _ => false
  | h :: haystack, n :: needle => h == n && startsWithChars haystack needle

/-- Modelled from the spec: `CMD::Options::startsWith` (its definition is not among the
files at hand; tests/functions_test.h calls it): false for the empty needle, otherwise
whether the haystack begins with the needle. -/
def startsWith (haystack needle : String) : Bool :=
  if needle.data.isEmpty then false else startsWithChars haystack.data needle.data

/-- Modelled from the spec: the search behind `CMD::Options::contains`: the needle is
tried at every position of the haystack, the first one first. -/
def containsChars : List Char → List Char → Bool
  | [], needle => needle.isEmpty
  | h :: haystack, needle =>
    startsWithChars (h :: haystack) needle || containsChars haystack needle

/-- Modelled from the spec: `CMD::Options::contains` (its definition is not among the
files at hand; tests/functions_test.h calls it): whether the needle is found somewhere
in the haystack. -/
def contains (haystack needle : String) : Bool :=
  containsChars haystack.data needle.data

end Options

end CMD

namespace fast_chess

/-! ## Vocabulary of the statements -/

/-- The optional limit fields of a search command, as the specification words them:
" nodes <nodes>" when the node limit is non-zero, then " depth <plies>" when the ply
limit is non-zero. -/
def limitFields (limit : Limit) : String :=
  (if limit.nodes ≠ 0 then " nodes " ++ toString limit.nodes else "") ++
  (if limit.plies ≠ 0 then " depth " ++ toString limit.plies else "")

/-- The clock part of a search command: " movetime <fixed_time>" for a fixed per-move
time, otherwise the remaining times, the increments and the moves to go of the clocks,
each under the guard `buildGoInput` puts on it. -/
def clockFields (stm : Color) (tc tc_2 : TimeControl) : String :=
  if tc.fixed_time ≠ 0 then " movetime " ++ toString tc.fixed_time
  else
    let white := if stm = Color.WHITE then tc else tc_2
    let black := if stm = Color.WHITE then tc_2 else tc
    (if tc.time ≠ 0 then
      " wtime " ++ toString white.time ++ " btime " ++ toString black.time else "") ++
    (if tc.increment ≠ 0 then
      " winc " ++ toString white.increment ++ " binc " ++ toString black.increment else "") ++
    (if tc.moves ≠ 0 then " movestogo " ++ toString tc.moves else "")

/-- An engine configuration used in the examples. -/
def sampleConfig : EngineConfiguration :=
  { name := "sample", dir := "./engines/", cmd := "sample.exe",
    options := [("Hash", "16"), ("Threads", "1")], limit := ⟨5000, 12⟩ }

/-- The sample configuration without search limits. -/
def unlimitedConfig : EngineConfiguration :=
  { sampleConfig with limit := ⟨0, 0⟩ }

/-- The "moves" section of a position command, as the specification words it: nothing for
an empty move list, otherwise " moves " and the moves in order, separated by single
spaces. -/
def movesSection (moves : List String) : String :=
  if moves = [] then "" else " moves " ++ " ".intercalate moves

/-- The characters of a move list in which every move is preceded by a space. -/
def spaced : List String → List Char
  | [] => []
  | move :: rest => ' ' :: (move.data ++ spaced rest)

/-- An engine whose stored transcript is `output_` and whose channel has seen no
operation yet. -/
def engineWith (output_ : List String) : UciEngine :=
  { config_ := sampleConfig, output_ := output_, ping_time_ := 60000,
    process := { trace := [], timeout_ := false } }

/-- The line `sendSetoption` writes for one configured option. -/
def setoptionLine (option : String × String) : String :=
  "setoption name " ++ option.1 ++ " value " ++ option.2

/-- What the channel is handed for a list of options: one setoption line, with its
newline, per option, in the order of the list. -/
def optionLines (options : List (String × String)) : List String :=
  options.map (fun option => setoptionLine option ++ "\n")

/-- The trace once `startEngine` has launched the process, written "uci" and issued the
read for "uciok". -/
def uciTrace (timeout_threshold : Int) (e : UciEngine) : List Event :=
  e.process.trace ++ [Event.init (e.config_.dir ++ e.config_.cmd) e.config_.name,
    Event.write "uci\n", Event.read "uciok" timeout_threshold]

/-- What the read for "uciok" of `startEngine` returns, when the launch and the "uci"
write succeed and the read itself does not fail. -/
def uciRead (env : Env) (timeout_threshold : Int) (e : UciEngine) : Option ReadResult :=
  if env.launches (e.process.trace ++
        [Event.init (e.config_.dir ++ e.config_.cmd) e.config_.name]) = true ∧
      env.accepts (e.process.trace ++
        [Event.init (e.config_.dir ++ e.config_.cmd) e.config_.name,
          Event.write "uci\n"]) = true then
    env.answer (uciTrace timeout_threshold e)
  else none

/-- The engine after `writeEngine` handed `input` to the channel. -/
def afterWrite (e : UciEngine) (input : String) : UciEngine :=
  { e with process := { e.process with
      trace := e.process.trace ++ [Event.write (input ++ "\n")] } }

/-- The trace after a successful `isResponsive` exchange: the "isready" write and the
"readyok" read with the given threshold. -/
def pingTrace (threshold : Int) (e : UciEngine) : List Event :=
  e.process.trace ++ [Event.write "isready\n", Event.read "readyok" threshold]

/-- The engine after a channel read that returned `r` at trace `trace`. -/
def afterRead (e : UciEngine) (trace : List Event) (r : ReadResult) : UciEngine :=
  { e with output_ := r.lines, process := { trace := trace, timeout_ := r.timedOut } }

/-- A process that runs, accepts every write and answers every read at once with the
marker it was asked for. -/
def promptEnv : Env :=
  { launches := fun _ => true
    alive := fun _ => true
    accepts := fun _ => true
    answer := fun trace =>
      match trace.getLast? with
      | some (Event.read last_word _) => some { lines := [last_word], timedOut := false }
      | _ => none }

/-- A process that runs and accepts every write but never prints a line: every read
times out with nothing buffered. -/
def silentEnv : Env :=
  { launches := fun _ => true
    alive := fun _ => true
    accepts := fun _ => true
    answer := fun _ => some { lines := [], timedOut := true } }

/-- A process that has exited: it is not alive, writes fail and reads fail. -/
def deadEnv : Env :=
  { launches := fun _ => true
    alive := fun _ => false
    accepts := fun _ => false
    answer := fun _ => none }

/-- A process that never prints "uciok" but answers "isready": reads for "uciok" time out
after an identification line, every other read returns its marker. -/
def lazyEnv : Env :=
  { launches := fun _ => true
    alive := fun _ => true
    accepts := fun _ => true
    answer := fun trace =>
      match trace.getLast? with
      | some (Event.read last_word _) =>
        if last_word = "uciok" then some { lines := ["id name lazy"], timedOut := true }
        else some { lines := [last_word], timedOut := false }
      | _ => none }

/-- The names of the clock fields of a search command. -/
def clockFieldNames : List String := ["wtime", "btime", "winc", "binc", "movestogo"]

/-- The text `field` occurs in `command` as a contiguous run of characters. -/
def occursIn (field command : String) : Prop := field.data <:+: command.data

instance (field command : String) : Decidable (occursIn field command) :=
  inferInstanceAs (Decidable (field.data <:+: command.data))

/-- The characters a rendered integer is made of. -/
def numeralChar (c : Char) : Bool := c.isDigit || c == '-'

/-! ## Decimal rendering -/

section Rendering

theorem digitChar_isDigit (k : Nat) (hk : k < 10) : (Nat.digitChar k).isDigit = true := by
  interval_cases k <;> rfl

theorem digitChar_value (k : Nat) (hk : k < 10) :
    (Nat.digitChar k).toNat - '0'.toNat = k := by
  interval_cases k <;> rfl

theorem digitsValue_append_singleton (ds : List Char) (c : Char) :
    str_utils.digitsValue (ds ++ [c]) = str_utils.digitsValue ds * 10 + (c.toNat - '0'.toNat) := by
  simp [str_utils.digitsValue, List.foldl_append]

/-- What `Nat.toDigitsCore` produces for base ten when the fuel suffices. -/
theorem toDigitsCore_ten (fuel : Nat) : ∀ (n : Nat) (ds : List Char), n < fuel →
    Nat.toDigitsCore 10 fuel n ds = Nat.toDigitsCore 10 fuel n [] ++ ds ∧
    Nat.toDigitsCore 10 fuel n [] ≠ [] ∧
    (∀ c ∈ Nat.toDigitsCore 10 fuel n [], c.isDigit = true) ∧
    str_utils.digitsValue (Nat.toDigitsCore 10 fuel n []) = n := by
  induction fuel with
  | zero => intro n ds h; omega
  | succ f ih =>
    intro n ds h
    by_cases h0 : n / 10 = 0
    · have hn : n % 10 = n := by omega
      simp only [Nat.toDigitsCore, h0, if_true]
      refine ⟨by simp, by simp, ?_, ?_⟩
      · intro c hc
        simp only [List.mem_singleton] at hc
        subst hc
        exact digitChar_isDigit _ (Nat.mod_lt _ (by decide))
      · have := digitsValue_append_singleton [] (Nat.digitChar (n % 10))
        simp only [List.nil_append] at this
        rw [this, digitChar_value _ (Nat.mod_lt _ (by decide))]
        simp [str_utils.digitsValue, hn]
    · have hlt : n / 10 < f := by omega
      obtain ⟨a1, -, -, -⟩ := ih (n / 10) (Nat.digitChar (n % 10) :: ds) hlt
      obtain ⟨b1, b2, b3, b4⟩ := ih (n / 10) [Nat.digitChar (n % 10)] hlt
      obtain ⟨-, c2, c3, c4⟩ := ih (n / 10) [] hlt
      simp only [Nat.toDigitsCore, h0, if_false]
      refine ⟨?_, ?_, ?_, ?_⟩
      · rw [a1, b1]; simp
      · rw [b1]; simp
      · rw [b1]
        intro c hc
        rcases List.mem_append.1 hc with hc | hc
        · exact c3 c hc
        · simp only [List.mem_singleton] at hc
          subst hc
          exact digitChar_isDigit _ (Nat.mod_lt _ (by decide))
      · rw [b1, digitsValue_append_singleton, c4, digitChar_value _ (Nat.mod_lt _ (by decide))]
        omega

theorem toString_nat_data (n : Nat) : (toString n).data = Nat.toDigits 10 n := rfl

theorem toString_nat_ne_nil (n : Nat) : (toString n).data ≠ [] :=
  (toDigitsCore_ten (n + 1) n [] (Nat.lt_succ_self n)).2.1

theorem toString_nat_digits (n : Nat) : ∀ c ∈ (toString n).data, c.isDigit = true :=
  (toDigitsCore_ten (n + 1) n [] (Nat.lt_succ_self n)).2.2.1

theorem toString_nat_value (n : Nat) : str_utils.digitsValue (toString n).data = n :=
  (toDigitsCore_ten (n + 1) n [] (Nat.lt_succ_self n)).2.2.2

theorem toString_int_ofNat (n : Nat) : toString (Int.ofNat n) = toString n := rfl

theorem toString_int_negSucc (n : Nat) :
    toString (Int.negSucc n) = "-" ++ toString (n + 1) := rfl

theorem toString_int_ne_nil (n : Int) : (toString n).data ≠ [] := by
  cases n with
  | ofNat m => exact toString_nat_ne_nil m
  | negSucc m => rw [toString_int_negSucc]; simp

theorem toString_int_chars (n : Int) : ∀ c ∈ (toString n).data, numeralChar c = true := by
  cases n with
  | ofNat m =>
    intro c hc
    simp [numeralChar, toString_nat_digits m c hc]
  | negSucc m =>
    rw [toString_int_negSucc]
    intro c hc
    simp only [String.data_append, List.mem_append] at hc
    rcases hc with hc | hc
    · have : c = '-' := by simpa using hc
      subst this; rfl
    · simp [numeralChar, toString_nat_digits (m + 1) c hc]

theorem isDigit_not_isspace (c : Char) (h : c.isDigit = true) :
    str_utils.isspace c = false := by
  cases hw : str_utils.isspace c with
  | false => rfl
  | true =>
    simp only [str_utils.isspace, Bool.or_eq_true, decide_eq_true_eq] at hw
    rcases hw with ((((hw | hw) | hw) | hw) | hw) | hw <;> subst hw <;>
      exact absurd h (by decide)

theorem stoi_digits (ds : List Char) (hne : ds ≠ []) (hd : ∀ c ∈ ds, c.isDigit = true)
    (hr : (str_utils.digitsValue ds : Int) < (2 : Int) ^ 31) :
    str_utils.stoi (String.mk ds) = Except.ok (str_utils.digitsValue ds : Int) := by
  obtain ⟨c, cs, rfl⟩ := List.exists_cons_of_ne_nil hne
  have hc : c.isDigit = true := hd c (by simp)
  have hw : str_utils.isspace c = false := isDigit_not_isspace c hc
  have hm : c ≠ '-' := by intro h; subst h; exact absurd hc (by decide)
  have hp : c ≠ '+' := by intro h; subst h; exact absurd hc (by decide)
  have htake : List.takeWhile Char.isDigit (c :: cs) = c :: cs :=
    List.takeWhile_eq_self_iff.2 hd
  have hnn : (0 : Int) ≤ (str_utils.digitsValue (c :: cs) : Int) := Int.ofNat_nonneg _
  unfold str_utils.stoi
  simp only [List.dropWhile_cons_of_neg (by simp [hw] : ¬ (str_utils.isspace c = true))]
  simp only [List.dropWhile_cons_of_neg (by simp [hw] : ¬ (str_utils.isspace c = true)),
    List.head?_cons, Option.some.injEq, hm, hp, or_self, if_false, htake]
  rw [if_neg (by simp), if_pos ⟨by omega, hr⟩]

theorem stoi_neg_digits (ds : List Char) (hne : ds ≠ []) (hd : ∀ c ∈ ds, c.isDigit = true)
    (hr : (str_utils.digitsValue ds : Int) ≤ (2 : Int) ^ 31) :
    str_utils.stoi (String.mk ('-' :: ds)) = Except.ok (-(str_utils.digitsValue ds : Int)) := by
  have htake : List.takeWhile Char.isDigit ds = ds := List.takeWhile_eq_self_iff.2 hd
  have hnn : (0 : Int) ≤ (str_utils.digitsValue ds : Int) := Int.ofNat_nonneg _
  unfold str_utils.stoi
  simp only [List.dropWhile_cons_of_neg (by decide : ¬ (str_utils.isspace '-' = true)),
    List.head?_cons, true_or, if_true, List.tail_cons, htake]
  rw [if_neg hne, if_pos ⟨by omega, by omega⟩]

/-- Reading back a rendered `int` gives the number. -/
theorem stoi_toString (n : Int) (hlo : -(2 : Int) ^ 31 ≤ n) (hhi : n < (2 : Int) ^ 31) :
    str_utils.stoi (toString n) = Except.ok n := by
  cases n with
  | ofNat m =>
    have hv := toString_nat_value m
    have := stoi_digits (toString m).data (toString_nat_ne_nil m) (toString_nat_digits m)
      (by rw [hv]; exact hhi)
    rw [hv] at this
    exact this
  | negSucc m =>
    have hv := toString_nat_value (m + 1)
    have hm : Int.negSucc m = -((m + 1 : Nat) : Int) := rfl
    rw [hm] at hlo
    have := stoi_neg_digits (toString (m + 1)).data (toString_nat_ne_nil _)
      (toString_nat_digits _) (by rw [hv]; omega)
    rw [hv] at this
    rw [toString_int_negSucc, hm]
    exact this

theorem not_mem_toString_int (c : Char) (hc : numeralChar c = false) (n : Int) :
    c ∉ (toString n).data := by
  intro h
  have := toString_int_chars n c h
  rw [hc] at this
  exact Bool.noConfusion this

end Rendering

/-! ## Search command -/

section GoInput

theorem not_mem_limitFields (c : Char) (hc : numeralChar c = false)
    (hk : c ∉ " nodes depth ".data) (limit : Limit) : c ∉ (limitFields limit).data := by
  have hn := not_mem_toString_int c hc limit.nodes
  have hp := not_mem_toString_int c hc limit.plies
  simp only [String.data_append, List.mem_append, List.mem_cons, not_or] at hk
  unfold limitFields
  by_cases h1 : limit.nodes ≠ 0 <;> by_cases h2 : limit.plies ≠ 0 <;>
    simp only [h1, h2, if_true, if_false, String.data_append, List.mem_append, not_or,
      not_false_eq_true, and_true, true_and, List.not_mem_nil] <;>
    simp_all

/-- A word that holds a character missing from `'o' :: rest` and does not begin with 'g'
does not occur in `'g' :: 'o' :: rest`. -/
theorem not_infix_go (word rest : List Char) (c : Char) (hc : c ∈ word)
    (hhead : word.head? ≠ some 'g') (hrest : c ∉ 'o' :: rest) :
    ¬ word <:+: 'g' :: 'o' :: rest := by
  intro h
  rcases List.infix_cons_iff.1 h with hpre | hin
  · rcases List.prefix_cons_iff.1 hpre with hnil | ⟨t, ht, -⟩
    · subst hnil; simp at hc
    · subst ht; simp at hhead
  · exact hrest (hin.subset hc)

theorem buildGoInput_fixed_eq (config_ : EngineConfiguration) (stm : Color)
    (tc tc_2 : TimeControl) (h : tc.fixed_time ≠ 0) :
    buildGoInput config_ stm tc tc_2 =
      "go" ++ limitFields config_.limit ++ " movetime " ++ toString tc.fixed_time := by
  unfold buildGoInput limitFields
  apply String.ext
  by_cases h1 : config_.limit.nodes ≠ 0 <;> by_cases h2 : config_.limit.plies ≠ 0 <;>
    simp only [h, h1, h2, if_true, if_false, ne_eq, not_false_eq_true, not_true_eq_false,
      String.data_append, List.append_assoc, String.append_empty, List.append_nil,
      List.nil_append]

theorem not_mem_clockFields (c : Char) (hc : numeralChar c = false)
    (hk : c ∉ " movetime wtime btime winc binc movestogo ".data) (stm : Color)
    (tc tc_2 : TimeControl) : c ∉ (clockFields stm tc tc_2).data := by
  have n1 := not_mem_toString_int c hc tc.fixed_time
  have n2 := not_mem_toString_int c hc tc.time
  have n3 := not_mem_toString_int c hc tc_2.time
  have n4 := not_mem_toString_int c hc tc.increment
  have n5 := not_mem_toString_int c hc tc_2.increment
  have n6 := not_mem_toString_int c hc tc.moves
  simp only [String.data_append, List.mem_append, List.mem_cons, not_or] at hk
  unfold clockFields
  cases stm <;> by_cases h0 : tc.fixed_time ≠ 0 <;> by_cases h1 : tc.time ≠ 0 <;>
    by_cases h2 : tc.increment ≠ 0 <;> by_cases h3 : tc.moves ≠ 0 <;>
    simp only [h0, h1, h2, h3, if_true, if_false, String.data_append, List.mem_append, not_or,
      not_false_eq_true, and_true, true_and, List.not_mem_nil, reduceCtorEq] <;>
    simp_all

theorem buildGoInput_eq (config_ : EngineConfiguration) (stm : Color) (tc tc_2 : TimeControl) :
    buildGoInput config_ stm tc tc_2 =
      "go" ++ limitFields config_.limit ++ clockFields stm tc tc_2 := by
  unfold buildGoInput limitFields clockFields
  apply String.ext
  by_cases h1 : config_.limit.nodes ≠ 0 <;> by_cases h2 : config_.limit.plies ≠ 0 <;>
    by_cases h0 : tc.fixed_time ≠ 0 <;> by_cases h3 : tc.time ≠ 0 <;>
    by_cases h4 : tc.increment ≠ 0 <;> by_cases h5 : tc.moves ≠ 0 <;>
    simp only [h0, h1, h2, h3, h4, h5, if_true, if_false, ne_eq, not_false_eq_true,
      not_true_eq_false, String.data_append, List.append_assoc, String.append_empty,
      List.append_nil, List.nil_append]

theorem limitFields_zero : limitFields ⟨0, 0⟩ = "" := by decide

theorem not_mem_clockFields_no_increment (c : Char) (hc : numeralChar c = false)
    (hk : c ∉ " wtime btime movestogo ".data) (stm : Color) (tc tc_2 : TimeControl)
    (hf : tc.fixed_time = 0) (hi : tc.increment = 0) :
    c ∉ (clockFields stm tc tc_2).data := by
  have n2 := not_mem_toString_int c hc tc.time
  have n3 := not_mem_toString_int c hc tc_2.time
  have n6 := not_mem_toString_int c hc tc.moves
  simp only [String.data_append, List.mem_append, List.mem_cons, not_or] at hk
  unfold clockFields
  cases stm <;> by_cases h1 : tc.time ≠ 0 <;> by_cases h3 : tc.moves ≠ 0 <;>
    simp only [hf, hi, h1, h3, if_true, if_false, String.data_append, List.mem_append, not_or,
      not_false_eq_true, and_true, true_and, List.not_mem_nil, reduceCtorEq, ne_eq,
      not_true_eq_false] <;>
    simp_all

theorem clockFields_increment (stm : Color) (tc tc_2 : TimeControl)
    (hf : tc.fixed_time = 0) (hi : tc.increment ≠ 0) :
    ∃ front back : String,
      clockFields stm tc tc_2 =
        front ++ (" winc " ++ toString (if stm = Color.WHITE then tc else tc_2).increment ++
          " binc " ++ toString (if stm = Color.WHITE then tc_2 else tc).increment) ++ back := by
  refine ⟨if tc.time ≠ 0 then
      " wtime " ++ toString (if stm = Color.WHITE then tc else tc_2).time ++ " btime " ++
        toString (if stm = Color.WHITE then tc_2 else tc).time else "",
    if tc.moves ≠ 0 then " movestogo " ++ toString tc.moves else "", ?_⟩
  unfold clockFields
  simp only [hf, hi, ne_eq, not_true_eq_false, not_false_eq_true, if_true, if_false]

theorem occursIn_of_eq (field command front back : String)
    (h : command = front ++ field ++ back) : occursIn field command := by
  unfold occursIn
  rw [h]
  exact ⟨front.data, back.data, by simp [String.data_append]⟩

end GoInput

/-! ## Position command -/

section PositionInput

theorem foldl_moves (moves : List String) (acc : String) :
    moves.foldl (fun position move => position ++ (" " ++ move)) acc =
      String.intercalate.go acc " " moves := by
  induction moves generalizing acc with
  | nil => rfl
  | cons m ms ih =>
    simp only [List.foldl_cons, String.intercalate.go]
    rw [ih, String.append_assoc]

theorem intercalate_go_data (moves : List String) (acc : String) :
    (String.intercalate.go acc " " moves).data = acc.data ++ spaced moves := by
  induction moves generalizing acc with
  | nil => simp [String.intercalate.go, spaced]
  | cons m ms ih =>
    simp only [String.intercalate.go, spaced]
    rw [ih]
    simp [String.data_append, List.append_assoc]

theorem intercalate_go_append (moves : List String) (front acc : String) :
    String.intercalate.go (front ++ acc) " " moves =
      front ++ String.intercalate.go acc " " moves := by
  apply String.ext
  simp only [intercalate_go_data, String.data_append, List.append_assoc]

theorem buildPositionInput_eq (moves : List String) (fen : String) :
    buildPositionInput moves fen =
      (if fen = "startpos" then "position startpos" else "position fen " ++ fen) ++
        movesSection moves := by
  unfold buildPositionInput movesSection
  cases moves with
  | nil => simp
  | cons m ms =>
    simp only [ne_eq, reduceCtorEq, not_false_eq_true, if_true, if_false, List.foldl_cons,
      String.intercalate]
    rw [foldl_moves, String.append_assoc, intercalate_go_append]
    rw [show (" moves" ++ (" " ++ m)) = " moves " ++ m from by
      apply String.ext; simp [String.data_append]]
    rw [intercalate_go_append]

theorem splitChars_segment (d : Char) (segment rest : List Char) (h : d ∉ segment) :
    str_utils.splitChars d (segment ++ d :: rest) = segment :: str_utils.splitChars d rest := by
  induction segment with
  | nil => simp [str_utils.splitChars]
  | cons c cs ih =>
    have hc : c ≠ d := fun e => h (by simp [e])
    have hcs : d ∉ cs := fun e => h (by simp [e])
    have e : str_utils.splitChars d (c :: cs ++ d :: rest) =
        (match str_utils.splitChars d (cs ++ d :: rest) with
          | [] => [[c]]
          | segment :: seglist => (c :: segment) :: seglist) := by
      simp only [List.cons_append, str_utils.splitChars, hc, if_false]
      rfl
    rw [e, ih hcs]

theorem splitChars_last (d : Char) (segment : List Char) (hne : segment ≠ [])
    (h : d ∉ segment) : str_utils.splitChars d segment = [segment] := by
  induction segment with
  | nil => exact absurd rfl hne
  | cons c cs ih =>
    have hc : c ≠ d := fun e => h (by simp [e])
    have hcs : d ∉ cs := fun e => h (by simp [e])
    simp only [str_utils.splitChars, hc, if_false]
    cases cs with
    | nil => simp [str_utils.splitChars]
    | cons c2 cs2 => rw [ih (by simp) hcs]

theorem splitChars_spaced (move : String) (moves : List String)
    (h : ∀ m ∈ move :: moves, m ≠ "" ∧ ' ' ∉ m.data) :
    str_utils.splitChars ' ' (move.data ++ spaced moves) =
      (move :: moves).map String.data := by
  induction moves generalizing move with
  | nil =>
    have hm := h move (by simp)
    have hne : move.data ≠ [] := fun e => hm.1 (String.ext e)
    simp only [spaced, List.append_nil, List.map_cons, List.map_nil]
    exact splitChars_last ' ' move.data hne hm.2
  | cons m ms ih =>
    have hm := h move (by simp)
    simp only [spaced, List.map_cons]
    rw [splitChars_segment ' ' move.data _ hm.2, ih m (fun x hx => h x (by simp [hx]))]
    simp

end PositionInput

/-! ## Transcript parsing -/

section Transcript

theorem findElement_absent (haystack : List String) (needle : String)
    (h : needle ∉ haystack) : str_utils.findElement haystack needle = none := by
  induction haystack with
  | nil => rfl
  | cons t rest ih =>
    have ht : t ≠ needle := fun e => h (by simp [e])
    have hr : needle ∉ rest := fun e => h (by simp [e])
    simp only [str_utils.findElement, ht, if_false]
    exact ih hr

theorem findElement_first (pre post : List String) (needle value : String)
    (h : needle ∉ pre) :
    str_utils.findElement (pre ++ needle :: value :: post) needle = some value := by
  induction pre with
  | nil => simp [str_utils.findElement]
  | cons t rest ih =>
    have ht : t ≠ needle := fun e => h (by simp [e])
    have hr : needle ∉ rest := fun e => h (by simp [e])
    simp only [List.cons_append, str_utils.findElement, ht, if_false]
    exact ih hr

theorem findElement_last (pre : List String) (needle : String) (h : needle ∉ pre) :
    str_utils.findElement (pre ++ [needle]) needle = none := by
  induction pre with
  | nil => simp [str_utils.findElement]
  | cons t rest ih =>
    have ht : t ≠ needle := fun e => h (by simp [e])
    have hr : needle ∉ rest := fun e => h (by simp [e])
    simp only [List.cons_append, str_utils.findElement, ht, if_false]
    exact ih hr

theorem findElement_some (haystack : List String) (needle value : String)
    (h : str_utils.findElement haystack needle = some value) :
    ∃ pre post : List String, haystack = pre ++ needle :: value :: post ∧ needle ∉ pre := by
  induction haystack with
  | nil => simp [str_utils.findElement] at h
  | cons t rest ih =>
    by_cases ht : t = needle
    · simp only [str_utils.findElement, ht, if_true] at h
      cases rest with
      | nil => simp at h
      | cons v post =>
        simp only [List.head?_cons, Option.some.injEq] at h
        exact ⟨[], post, by simp [ht, h], by simp⟩
    · simp only [str_utils.findElement, ht, if_false] at h
      obtain ⟨pre, post, hr, hp⟩ := ih h
      refine ⟨t :: pre, post, by simp [hr], ?_⟩
      simp only [List.mem_cons, not_or]
      exact ⟨fun e => ht e.symm, hp⟩

theorem findElement_none (haystack : List String) (needle : String)
    (h : str_utils.findElement haystack needle = none) :
    needle ∉ haystack ∨ ∃ pre : List String, haystack = pre ++ [needle] ∧ needle ∉ pre := by
  induction haystack with
  | nil => exact Or.inl (by simp)
  | cons t rest ih =>
    by_cases ht : t = needle
    · simp only [str_utils.findElement, ht, if_true] at h
      cases rest with
      | nil => exact Or.inr ⟨[], by simp [ht], by simp⟩
      | cons v post => simp at h
    · simp only [str_utils.findElement, ht, if_false] at h
      rcases ih h with hn | ⟨pre, hr, hp⟩
      · refine Or.inl ?_
        simp only [List.mem_cons, not_or]
        exact ⟨fun e => ht e.symm, hn⟩
      · refine Or.inr ⟨t :: pre, by simp [hr], ?_⟩
        simp only [List.mem_cons, not_or]
        exact ⟨fun e => ht e.symm, hp⟩

theorem lastInfo_of_two (e : UciEngine) (earlier : List String) (info last : String)
    (hout : e.output_ = earlier ++ [info, last]) (hlen : e.output_.length < 2 ^ 64) :
    e.lastInfo = Except.ok (str_utils.splitString info ' ') := by
  have hl : e.output_.length = earlier.length + 2 := by rw [hout]; simp
  have hidx : e.lastInfoIndex = earlier.length := by
    unfold UciEngine.lastInfoIndex
    rw [hl] at hlen ⊢
    omega
  have hget : (earlier ++ [info, last])[earlier.length]? = some info := by
    rw [List.getElem?_append_right (Nat.le_refl _)]
    simp
  unfold UciEngine.lastInfo
  rw [hidx, hout, hget]

theorem bestmove_of_last (e : UciEngine) (earlier : List String) (line : String)
    (hout : e.output_ = earlier ++ [line]) :
    e.bestmove =
      match str_utils.findElement (str_utils.splitString line ' ') "bestmove" with
      | some move => Except.ok move
      | none => Except.error EngineError.bad_optional_access := by
  unfold UciEngine.bestmove
  rw [hout]
  simp

end Transcript

/-! ## Handshake -/

section Handshake

theorem writes_append (t u : List Event) : writes (t ++ u) = writes t ++ writes u := by
  induction t with
  | nil => rfl
  | cons ev rest ih => cases ev <;> simp [writes, ih]

theorem reads_append (t u : List Event) : reads (t ++ u) = reads t ++ reads u := by
  induction t with
  | nil => rfl
  | cons ev rest ih => cases ev <;> simp [reads, ih]

theorem writeEngine_accepted (env : Env) (input : String) (e : UciEngine)
    (h : env.accepts (e.process.trace ++ [Event.write (input ++ "\n")]) = true) :
    e.writeEngine env input =
      (Except.ok (), { e with process :=
        { e.process with trace := e.process.trace ++ [Event.write (input ++ "\n")] } }) := by
  simp [UciEngine.writeEngine, Process.writeProcess, h]

theorem writeEngine_rejected (env : Env) (input : String) (e : UciEngine)
    (h : env.accepts (e.process.trace ++ [Event.write (input ++ "\n")]) = false) :
    e.writeEngine env input =
      (Except.error EngineError.channel, { e with process :=
        { e.process with trace := e.process.trace ++ [Event.write (input ++ "\n")] } }) := by
  simp [UciEngine.writeEngine, Process.writeProcess, h]

theorem readEngine_answered (env : Env) (last_word : String) (threshold : Int)
    (e : UciEngine) (r : ReadResult)
    (h : env.answer (e.process.trace ++ [Event.read last_word threshold]) = some r) :
    e.readEngine env last_word threshold =
      (Except.ok r.lines,
        afterRead e (e.process.trace ++ [Event.read last_word threshold]) r) := by
  simp [UciEngine.readEngine, Process.readProcess, h, afterRead]

theorem readEngine_failed (env : Env) (last_word : String) (threshold : Int)
    (e : UciEngine)
    (h : env.answer (e.process.trace ++ [Event.read last_word threshold]) = none) :
    e.readEngine env last_word threshold =
      (Except.error EngineError.channel,
        { e with output_ := [], process :=
          { e.process with trace := e.process.trace ++ [Event.read last_word threshold] } }) := by
  simp [UciEngine.readEngine, Process.readProcess, h]

theorem isResponsive_dead (env : Env) (threshold : Int) (e : UciEngine)
    (h : Process.isAlive env e.process = false) :
    e.isResponsive env threshold = (Except.ok false, e) := by
  simp [UciEngine.isResponsive, h]

theorem isResponsive_rejected (env : Env) (threshold : Int) (e : UciEngine)
    (h : Process.isAlive env e.process = true)
    (hw : env.accepts (e.process.trace ++ [Event.write "isready\n"]) = false) :
    e.isResponsive env threshold =
      (Except.error EngineError.channel, { e with process :=
        { e.process with trace := e.process.trace ++ [Event.write "isready\n"] } }) := by
  have hw2 := writeEngine_rejected env "isready" e hw
  simp only [UciEngine.isResponsive, h, Bool.not_true, Bool.false_eq_true, if_false, hw2]
  rfl

theorem isResponsive_failed (env : Env) (threshold : Int) (e : UciEngine)
    (h : Process.isAlive env e.process = true)
    (hw : env.accepts (e.process.trace ++ [Event.write "isready\n"]) = true)
    (hr : env.answer (pingTrace threshold e) = none) :
    e.isResponsive env threshold =
      (Except.error EngineError.channel, { e with output_ := [], process :=
        { e.process with trace := pingTrace threshold e } }) := by
  have hw2 := writeEngine_accepted env "isready" e hw
  simp only [UciEngine.isResponsive, h, Bool.not_true, Bool.false_eq_true, if_false, hw2]
  rw [readEngine_failed env "readyok" threshold _ (by simpa [pingTrace] using hr)]
  simp [pingTrace]

theorem isResponsive_answered (env : Env) (threshold : Int) (e : UciEngine) (r : ReadResult)
    (h : Process.isAlive env e.process = true)
    (hw : env.accepts (e.process.trace ++ [Event.write "isready\n"]) = true)
    (hr : env.answer (pingTrace threshold e) = some r) :
    e.isResponsive env threshold =
      (Except.ok (!r.timedOut), afterRead e (pingTrace threshold e) r) := by
  have hw2 := writeEngine_accepted env "isready" e hw
  simp only [UciEngine.isResponsive, h, Bool.not_true, Bool.false_eq_true, if_false, hw2]
  rw [readEngine_answered env "readyok" threshold _ r (by simpa [pingTrace] using hr)]
  simp [pingTrace, afterRead, Process.timeout]

theorem writes_map_write (lines : List String) :
    writes (lines.map Event.write) = lines := by
  induction lines with
  | nil => rfl
  | cons l rest ih => simp [writes, ih]

/-- The option loop writes the lines of a prefix of the options, in order; the prefix is
the whole list when the loop completes, and the loop only stops early on a channel
failure. -/
theorem sendOptions_spec (env : Env) : ∀ (options : List (String × String)) (e : UciEngine),
    ∃ k, k ≤ options.length ∧
      (UciEngine.sendOptions env options e).2 =
        { e with process := { e.process with
            trace := e.process.trace ++ (optionLines (options.take k)).map Event.write } } ∧
      (((UciEngine.sendOptions env options e).1 = Except.ok () ∧ k = options.length) ∨
        (UciEngine.sendOptions env options e).1 = Except.error EngineError.channel) := by
  intro options
  induction options with
  | nil =>
    intro e
    exact ⟨0, Nat.le_refl _, by simp [UciEngine.sendOptions, optionLines], Or.inl ⟨rfl, rfl⟩⟩
  | cons o rest ih =>
    intro e
    cases hw : env.accepts (e.process.trace ++ [Event.write (setoptionLine o ++ "\n")]) with
    | false =>
      have h1 := writeEngine_rejected env (setoptionLine o) e hw
      refine ⟨1, by simp, ?_, Or.inr ?_⟩
      · simp only [UciEngine.sendOptions, UciEngine.sendSetoption]
        rw [show "setoption name " ++ o.1 ++ " value " ++ o.2 = setoptionLine o from rfl, h1]
        simp [optionLines]
      · simp only [UciEngine.sendOptions, UciEngine.sendSetoption]
        rw [show "setoption name " ++ o.1 ++ " value " ++ o.2 = setoptionLine o from rfl, h1]
    | true =>
      have h1 := writeEngine_accepted env (setoptionLine o) e hw
      obtain ⟨k, hk, hstate, hres⟩ := ih { e with process :=
        { e.process with trace := e.process.trace ++
          [Event.write (setoptionLine o ++ "\n")] } }
      have hstep : UciEngine.sendOptions env (o :: rest) e =
          UciEngine.sendOptions env rest { e with process :=
            { e.process with trace := e.process.trace ++
              [Event.write (setoptionLine o ++ "\n")] } } := by
        simp only [UciEngine.sendOptions, UciEngine.sendSetoption]
        rw [show "setoption name " ++ o.1 ++ " value " ++ o.2 = setoptionLine o from rfl, h1]
      refine ⟨k + 1, by simp [hk], ?_, ?_⟩
      · rw [hstep, hstate]
        simp [optionLines, List.append_assoc]
      · rw [hstep]
        rcases hres with ⟨h, hk2⟩ | h
        · exact Or.inl ⟨h, by simp [hk2]⟩
        · exact Or.inr h

theorem sendOptions_accepting (env : Env) (h : ∀ t, env.accepts t = true) :
    ∀ (options : List (String × String)) (e : UciEngine),
      (UciEngine.sendOptions env options e).1 = Except.ok () := by
  intro options
  induction options with
  | nil => intro e; rfl
  | cons o rest ih =>
    intro e
    have h1 := writeEngine_accepted env (setoptionLine o) e (h _)
    simp only [UciEngine.sendOptions, UciEngine.sendSetoption]
    rw [show "setoption name " ++ o.1 ++ " value " ++ o.2 = setoptionLine o from rfl, h1]
    exact ih _

theorem startEngine_launch_failed (env : Env) (thr : Int) (e : UciEngine)
    (hl : env.launches (e.process.trace ++
      [Event.init (e.config_.dir ++ e.config_.cmd) e.config_.name]) = false) :
    e.startEngine env thr =
      (Except.error EngineError.channel, { e with process := { e.process with
        trace := e.process.trace ++
          [Event.init (e.config_.dir ++ e.config_.cmd) e.config_.name] } }) := by
  simp [UciEngine.startEngine, Process.initProcess, hl]

theorem startEngine_uci_rejected (env : Env) (thr : Int) (e : UciEngine)
    (hl : env.launches (e.process.trace ++
      [Event.init (e.config_.dir ++ e.config_.cmd) e.config_.name]) = true)
    (hw : env.accepts (e.process.trace ++
      [Event.init (e.config_.dir ++ e.config_.cmd) e.config_.name,
        Event.write "uci\n"]) = false) :
    e.startEngine env thr =
      (Except.error EngineError.channel, { e with process := { e.process with
        trace := e.process.trace ++
          [Event.init (e.config_.dir ++ e.config_.cmd) e.config_.name,
            Event.write "uci\n"] } }) := by
  have h1 := writeEngine_rejected env "uci" { e with process := { e.process with
    trace := e.process.trace ++
      [Event.init (e.config_.dir ++ e.config_.cmd) e.config_.name] } }
    (by simpa [List.append_assoc] using hw)
  simp only [UciEngine.startEngine, Process.initProcess, hl, if_true, UciEngine.sendUci, h1]
  simp [List.append_assoc]

theorem startEngine_uci_failed (env : Env) (thr : Int) (e : UciEngine)
    (hl : env.launches (e.process.trace ++
      [Event.init (e.config_.dir ++ e.config_.cmd) e.config_.name]) = true)
    (hw : env.accepts (e.process.trace ++
      [Event.init (e.config_.dir ++ e.config_.cmd) e.config_.name,
        Event.write "uci\n"]) = true)
    (hr : env.answer (uciTrace thr e) = none) :
    e.startEngine env thr =
      (Except.error EngineError.channel, { e with output_ := [], process :=
        { e.process with trace := uciTrace thr e } }) := by
  have h1 := writeEngine_accepted env "uci" { e with process := { e.process with
    trace := e.process.trace ++
      [Event.init (e.config_.dir ++ e.config_.cmd) e.config_.name] } }
    (by simpa [List.append_assoc] using hw)
  simp only [UciEngine.startEngine, Process.initProcess, hl, if_true, UciEngine.sendUci, h1,
    UciEngine.readUci]
  rw [readEngine_failed env "uciok" thr _ (by simpa [uciTrace, List.append_assoc] using hr)]
  simp [uciTrace, List.append_assoc]

theorem startEngine_uci_answered (env : Env) (thr : Int) (e : UciEngine) (r : ReadResult)
    (hl : env.launches (e.process.trace ++
      [Event.init (e.config_.dir ++ e.config_.cmd) e.config_.name]) = true)
    (hw : env.accepts (e.process.trace ++
      [Event.init (e.config_.dir ++ e.config_.cmd) e.config_.name,
        Event.write "uci\n"]) = true)
    (hr : env.answer (uciTrace thr e) = some r) :
    e.startEngine env thr =
      if r.timedOut = false then
        UciEngine.sendOptions env e.config_.options (afterRead e (uciTrace thr e) r)
      else
        match UciEngine.isResponsive env 60000 (afterRead e (uciTrace thr e) r) with
        | (Except.error err, e2) => (Except.error err, e2)
        | (Except.ok true, e2) => UciEngine.sendOptions env e2.config_.options e2
        | (Except.ok false, e2) =>
          (Except.error (EngineError.runtime_error pingWarning), e2) := by
  have h1 := writeEngine_accepted env "uci" { e with process := { e.process with
    trace := e.process.trace ++
      [Event.init (e.config_.dir ++ e.config_.cmd) e.config_.name] } }
    (by simpa [List.append_assoc] using hw)
  have h2 := readEngine_answered env "uciok" thr { e with process := { e.process with
    trace := e.process.trace ++
      [Event.init (e.config_.dir ++ e.config_.cmd) e.config_.name] ++
      [Event.write ("uci" ++ "\n")] } } r
    (by simpa [uciTrace, List.append_assoc] using hr)
  have h3 : afterRead { e with process := { e.process with
      trace := e.process.trace ++
        [Event.init (e.config_.dir ++ e.config_.cmd) e.config_.name] ++
        [Event.write ("uci" ++ "\n")] } }
      (e.process.trace ++
        [Event.init (e.config_.dir ++ e.config_.cmd) e.config_.name] ++
        [Event.write ("uci" ++ "\n")] ++ [Event.read "uciok" thr]) r =
      afterRead e (uciTrace thr e) r := by
    simp [afterRead, uciTrace, List.append_assoc]
  simp only [UciEngine.startEngine, Process.initProcess, hl, if_true, UciEngine.sendUci, h1,
    UciEngine.readUci]
  rw [h2, h3]
  cases ht : r.timedOut with
  | false => simp [afterRead, Process.timeout, ht]
  | true => simp [afterRead, Process.timeout, ht]

/-- `isResponsive` returns false exactly when the process is not alive or the "readyok"
read returned with the deadline passed; the only exception it raises is the channel's. -/
theorem isResponsive_result (env : Env) (threshold : Int) (e : UciEngine) :
    ((e.isResponsive env threshold).1 = Except.ok false ↔
        (Process.isAlive env e.process = false ∨
          ∃ r : ReadResult,
            env.accepts (e.process.trace ++ [Event.write "isready\n"]) = true ∧
            env.answer (pingTrace threshold e) = some r ∧ r.timedOut = true)) ∧
      ((e.isResponsive env threshold).1 = Except.ok false ∨
        (e.isResponsive env threshold).1 = Except.ok true ∨
        (e.isResponsive env threshold).1 = Except.error EngineError.channel) ∧
      (e.isResponsive env threshold).2.config_ = e.config_ := by
  cases h : Process.isAlive env e.process with
  | false =>
    rw [isResponsive_dead env threshold e h]
    simp
  | true =>
    cases hw : env.accepts (e.process.trace ++ [Event.write "isready\n"]) with
    | false =>
      rw [isResponsive_rejected env threshold e h hw]
      simp
    | true =>
      cases hr : env.answer (pingTrace threshold e) with
      | none =>
        rw [isResponsive_failed env threshold e h hw hr]
        simp
      | some r =>
        rw [isResponsive_answered env threshold e r h hw hr]
        cases ht : r.timedOut <;> simp [ht, afterRead]

theorem uciRead_eq_some (env : Env) (thr : Int) (e : UciEngine) (r : ReadResult) :
    uciRead env thr e = some r ↔
      (env.launches (e.process.trace ++
          [Event.init (e.config_.dir ++ e.config_.cmd) e.config_.name]) = true ∧
        env.accepts (e.process.trace ++
          [Event.init (e.config_.dir ++ e.config_.cmd) e.config_.name,
            Event.write "uci\n"]) = true ∧
        env.answer (uciTrace thr e) = some r) := by
  unfold uciRead
  constructor
  · intro h
    split at h
    · rename_i hc
      exact ⟨hc.1, hc.2, h⟩
    · exact absurd h (by simp)
  · rintro ⟨h1, h2, h3⟩
    rw [if_pos ⟨h1, h2⟩, h3]

theorem setoptionLine_ne_isready (options : List (String × String)) :
    "isready\n" ∉ optionLines options := by
  intro h
  simp only [optionLines, List.mem_map] at h
  obtain ⟨o, -, ho⟩ := h
  have := congrArg String.data ho
  simp [setoptionLine, String.data_append] at this

theorem startEngine_no_read (env : Env) (thr : Int) (e : UciEngine)
    (h : uciRead env thr e = none) :
    (e.startEngine env thr).1 = Except.error EngineError.channel ∧
      (writes (e.startEngine env thr).2.process.trace = writes e.process.trace ∨
        writes (e.startEngine env thr).2.process.trace = writes e.process.trace ++ ["uci\n"]) := by
  cases hl : env.launches (e.process.trace ++
      [Event.init (e.config_.dir ++ e.config_.cmd) e.config_.name]) with
  | false =>
    rw [startEngine_launch_failed env thr e hl]
    exact ⟨rfl, Or.inl (by simp [writes_append, writes])⟩
  | true =>
    cases hw : env.accepts (e.process.trace ++
        [Event.init (e.config_.dir ++ e.config_.cmd) e.config_.name,
          Event.write "uci\n"]) with
    | false =>
      rw [startEngine_uci_rejected env thr e hl hw]
      exact ⟨rfl, Or.inr (by simp [writes_append, writes])⟩
    | true =>
      have hr : env.answer (uciTrace thr e) = none := by
        simpa [uciRead, hl, hw] using h
      rw [startEngine_uci_failed env thr e hl hw hr]
      exact ⟨rfl, Or.inr (by simp [uciTrace, writes_append, writes])⟩

theorem startEngine_in_time (env : Env) (thr : Int) (e : UciEngine) (r : ReadResult)
    (h : uciRead env thr e = some r) (ht : r.timedOut = false) :
    e.startEngine env thr =
      UciEngine.sendOptions env e.config_.options (afterRead e (uciTrace thr e) r) := by
  obtain ⟨hl, hw, hr⟩ := (uciRead_eq_some env thr e r).1 h
  rw [startEngine_uci_answered env thr e r hl hw hr, if_pos ht]

theorem startEngine_late (env : Env) (thr : Int) (e : UciEngine) (r : ReadResult)
    (h : uciRead env thr e = some r) (ht : r.timedOut = true) :
    e.startEngine env thr =
      match UciEngine.isResponsive env 60000 (afterRead e (uciTrace thr e) r) with
      | (Except.error err, e2) => (Except.error err, e2)
      | (Except.ok true, e2) => UciEngine.sendOptions env e2.config_.options e2
      | (Except.ok false, e2) =>
        (Except.error (EngineError.runtime_error pingWarning), e2) := by
  obtain ⟨hl, hw, hr⟩ := (uciRead_eq_some env thr e r).1 h
  rw [startEngine_uci_answered env thr e r hl hw hr, if_neg (by simp [ht])]

theorem sendOptions_not_runtime_error (env : Env) (options : List (String × String))
    (e : UciEngine) (what : String) :
    (UciEngine.sendOptions env options e).1 ≠
      Except.error (EngineError.runtime_error what) := by
  obtain ⟨k, -, -, hres⟩ := sendOptions_spec env options e
  rcases hres with ⟨h, -⟩ | h <;> rw [h] <;> simp

theorem isResponsive_true (env : Env) (threshold : Int) (e : UciEngine) :
    (e.isResponsive env threshold).1 = Except.ok true ↔
      (Process.isAlive env e.process = true ∧
        env.accepts (e.process.trace ++ [Event.write "isready\n"]) = true ∧
        ∃ r : ReadResult, env.answer (pingTrace threshold e) = some r ∧ r.timedOut = false) := by
  cases h : Process.isAlive env e.process with
  | false =>
    rw [isResponsive_dead env threshold e h]
    simp
  | true =>
    cases hw : env.accepts (e.process.trace ++ [Event.write "isready\n"]) with
    | false =>
      rw [isResponsive_rejected env threshold e h hw]
      simp
    | true =>
      cases hr : env.answer (pingTrace threshold e) with
      | none =>
        rw [isResponsive_failed env threshold e h hw hr]
        simp
      | some r =>
        rw [isResponsive_answered env threshold e r h hw hr]
        cases ht : r.timedOut <;> simp [ht]

/-- What `isResponsive` adds to the channel trace: nothing, or the "isready" write,
possibly followed by the "readyok" read. -/
theorem isResponsive_trace (env : Env) (threshold : Int) (e : UciEngine) :
    ∃ added : List Event,
      (e.isResponsive env threshold).2.process.trace = e.process.trace ++ added ∧
      (writes added = [] ∨ writes added = ["isready\n"]) := by
  cases h : Process.isAlive env e.process with
  | false =>
    rw [isResponsive_dead env threshold e h]
    exact ⟨[], by simp, Or.inl rfl⟩
  | true =>
    cases hw : env.accepts (e.process.trace ++ [Event.write "isready\n"]) with
    | false =>
      rw [isResponsive_rejected env threshold e h hw]
      exact ⟨[Event.write "isready\n"], rfl, Or.inr rfl⟩
    | true =>
      cases hr : env.answer (pingTrace threshold e) with
      | none =>
        rw [isResponsive_failed env threshold e h hw hr]
        exact ⟨[Event.write "isready\n", Event.read "readyok" threshold], rfl, Or.inr rfl⟩
      | some r =>
        rw [isResponsive_answered env threshold e r h hw hr]
        exact ⟨[Event.write "isready\n", Event.read "readyok" threshold], rfl, Or.inr rfl⟩

end Handshake

/-! ## Command-line helpers -/

section CommandLine

theorem startsWithChars_iff (needle : List Char) : ∀ haystack : List Char,
    CMD.Options.startsWithChars haystack needle = true ↔ needle <+: haystack := by
  induction needle with
  | nil =>
    intro haystack
    cases haystack <;> simp [CMD.Options.startsWithChars]
  | cons n ns ih =>
    intro haystack
    cases haystack with
    | nil => simp [CMD.Options.startsWithChars]
    | cons h hs =>
      simp only [CMD.Options.startsWithChars, Bool.and_eq_true, beq_iff_eq, ih hs,
        List.cons_prefix_cons]
      constructor
      · rintro ⟨h1, h2⟩; exact ⟨h1.symm, h2⟩
      · rintro ⟨h1, h2⟩; exact ⟨h1.symm, h2⟩

theorem containsChars_iff (needle : List Char) : ∀ haystack : List Char,
    CMD.Options.containsChars haystack needle = true ↔ needle <:+: haystack := by
  intro haystack
  induction haystack with
  | nil =>
    cases needle <;> simp [CMD.Options.containsChars]
  | cons h hs ih =>
    simp only [CMD.Options.containsChars, Bool.or_eq_true, startsWithChars_iff, ih,
      List.infix_cons_iff]

end CommandLine

/-- C1: when the own clock has a fixed per-move time, `buildGoInput` is exactly "go", the
optional node and depth limit fields and " movetime <fixed_time>"; none of the clock field
names wtime, btime, winc, binc, movestogo occurs anywhere in it, whatever the side to move
and the other values of the two clocks are. -/
theorem buildGoInput_fixed_time (config_ : EngineConfiguration) (stm : Color)
    (tc tc_2 : TimeControl) (h : tc.fixed_time ≠ 0) :
    buildGoInput config_ stm tc tc_2 =
        "go" ++ limitFields config_.limit ++ " movetime " ++ toString tc.fixed_time ∧
      ∀ field ∈ clockFieldNames, ¬ occursIn field (buildGoInput config_ stm tc tc_2) := by
  refine ⟨buildGoInput_fixed_eq config_ stm tc tc_2 h, ?_⟩
  rw [buildGoInput_fixed_eq config_ stm tc tc_2 h]
  have hdata : ("go" ++ limitFields config_.limit ++ " movetime " ++
      toString tc.fixed_time).data =
      'g' :: 'o' :: ((limitFields config_.limit).data ++ " movetime ".data ++
        (toString tc.fixed_time).data) := by
    simp [String.data_append]
  have hfree : ∀ c : Char, numeralChar c = false → c ∉ " nodes depth movetime ".data →
      c ∉ 'o' :: ((limitFields config_.limit).data ++ " movetime ".data ++
        (toString tc.fixed_time).data) := by
    intro c hc hk
    have h1 := not_mem_limitFields c hc (by revert hk; simp; tauto) config_.limit
    have h2 := not_mem_toString_int c hc tc.fixed_time
    revert hk
    simp only [List.mem_cons, List.mem_append, not_or]
    simp
    tauto
  intro field hf
  unfold occursIn
  rw [hdata]
  simp only [clockFieldNames, List.mem_cons, List.mem_singleton, List.not_mem_nil,
    or_false] at hf
  rcases hf with rfl | rfl | rfl | rfl | rfl
  · exact not_infix_go _ _ 'w' (by decide) (by decide) (hfree 'w' (by decide) (by decide))
  · exact not_infix_go _ _ 'b' (by decide) (by decide) (hfree 'b' (by decide) (by decide))
  · exact not_infix_go _ _ 'w' (by decide) (by decide) (hfree 'w' (by decide) (by decide))
  · exact not_infix_go _ _ 'b' (by decide) (by decide) (hfree 'b' (by decide) (by decide))
  · exact not_infix_go _ _ 'g' (by decide) (by decide) (hfree 'g' (by decide) (by decide))


/-- C1 at a concrete input: a clock with a fixed time of 500 next to a full time control. -/
theorem buildGoInput_fixed_time_witness :
    (⟨40, 60000, 1000, 500⟩ : TimeControl).fixed_time ≠ 0 ∧
    (buildGoInput sampleConfig Color.BLACK ⟨40, 60000, 1000, 500⟩ ⟨40, 30000, 2000, 0⟩ =
        "go" ++ limitFields sampleConfig.limit ++ " movetime " ++
          toString (⟨40, 60000, 1000, 500⟩ : TimeControl).fixed_time ∧
      ∀ field ∈ clockFieldNames, ¬ occursIn field
        (buildGoInput sampleConfig Color.BLACK ⟨40, 60000, 1000, 500⟩ ⟨40, 30000, 2000, 0⟩)) :=
  ⟨by decide, buildGoInput_fixed_time sampleConfig Color.BLACK _ _ (by decide)⟩

/-- C9: in both branches the search command is "go", then " nodes <nodes>" exactly when
the node limit is non-zero, then " depth <plies>" exactly when the ply limit is non-zero,
then the clock part; the clock part is the one an engine without limits sends, no time
field name occurs in the part up to the limits, and neither "nodes" nor "depth" occurs in
the clock part. -/
theorem buildGoInput_limits_first (config_ : EngineConfiguration) (stm : Color)
    (tc tc_2 : TimeControl) :
    ∃ clock : String,
      buildGoInput config_ stm tc tc_2 =
        "go" ++ (if config_.limit.nodes ≠ 0 then " nodes " ++ toString config_.limit.nodes
                 else "")
             ++ (if config_.limit.plies ≠ 0 then " depth " ++ toString config_.limit.plies
                 else "")
             ++ clock ∧
      buildGoInput { config_ with limit := ⟨0, 0⟩ } stm tc tc_2 = "go" ++ clock ∧
      (∀ field ∈ "movetime" :: clockFieldNames,
        ¬ occursIn field ("go" ++ limitFields config_.limit)) ∧
      ¬ occursIn "nodes" clock ∧ ¬ occursIn "depth" clock := by
  refine ⟨clockFields stm tc tc_2, ?_, ?_, ?_, ?_, ?_⟩
  · rw [buildGoInput_eq]
    simp only [limitFields, String.append_assoc]
  · rw [buildGoInput_eq]
    simp only [limitFields_zero, String.append_empty]
  · have hfree : ∀ c : Char, numeralChar c = false → c ∉ "go nodes depth ".data →
        c ∉ ("go" ++ limitFields config_.limit).data := by
      intro c hc hk
      have h1 := not_mem_limitFields c hc (by revert hk; simp) config_.limit
      revert hk
      simp only [String.data_append, List.mem_append, not_or]
      simp
      tauto
    intro field hf
    simp only [clockFieldNames, List.mem_cons, List.mem_singleton, List.not_mem_nil,
      or_false] at hf
    rcases hf with rfl | rfl | rfl | rfl | rfl | rfl
    · exact fun h => hfree 'm' (by decide) (by decide) (h.subset (by decide))
    · exact fun h => hfree 'w' (by decide) (by decide) (h.subset (by decide))
    · exact fun h => hfree 'b' (by decide) (by decide) (h.subset (by decide))
    · exact fun h => hfree 'w' (by decide) (by decide) (h.subset (by decide))
    · exact fun h => hfree 'b' (by decide) (by decide) (h.subset (by decide))
    · exact fun h => hfree 'm' (by decide) (by decide) (h.subset (by decide))
  · exact fun h => not_mem_clockFields 'd' (by decide) (by decide) stm tc tc_2
      (h.subset (by decide))
  · exact fun h => not_mem_clockFields 'd' (by decide) (by decide) stm tc tc_2
      (h.subset (by decide))

/-- C3: with no node or ply limit and an own clock that has no fixed time, a non-zero
time, a non-zero increment and no moves to go, `buildGoInput` is exactly
"go wtime W btime B winc WI binc BI": the own clock supplies the white values when white
is to move and the black values when black is to move, the opponent clock the others; the
text "movestogo" does not occur in it. -/
theorem buildGoInput_clock (config_ : EngineConfiguration) (stm : Color)
    (tc tc_2 : TimeControl) (hn : config_.limit.nodes = 0) (hp : config_.limit.plies = 0)
    (hf : tc.fixed_time = 0) (ht : tc.time ≠ 0) (hi : tc.increment ≠ 0)
    (hm : tc.moves = 0) :
    buildGoInput config_ stm tc tc_2 =
      (match stm with
        | Color.WHITE =>
          "go wtime " ++ toString tc.time ++ " btime " ++ toString tc_2.time ++
            " winc " ++ toString tc.increment ++ " binc " ++ toString tc_2.increment
        | Color.BLACK =>
          "go wtime " ++ toString tc_2.time ++ " btime " ++ toString tc.time ++
            " winc " ++ toString tc_2.increment ++ " binc " ++ toString tc.increment) ∧
      ¬ occursIn "movestogo" (buildGoInput config_ stm tc tc_2) := by
  have hfree : ∀ a b c d : Int, ¬ occursIn "movestogo"
      ("go wtime " ++ toString a ++ " btime " ++ toString b ++ " winc " ++ toString c ++
        " binc " ++ toString d) := by
    intro a b c d
    have ha := not_mem_toString_int 'g' (by decide) a
    have hb := not_mem_toString_int 'g' (by decide) b
    have hc := not_mem_toString_int 'g' (by decide) c
    have hd := not_mem_toString_int 'g' (by decide) d
    have hdata : ("go wtime " ++ toString a ++ " btime " ++ toString b ++ " winc " ++
        toString c ++ " binc " ++ toString d).data =
        'g' :: 'o' :: (" wtime ".data ++ (toString a).data ++ " btime ".data ++
          (toString b).data ++ " winc ".data ++ (toString c).data ++ " binc ".data ++
          (toString d).data) := by
      simp [String.data_append]
    unfold occursIn
    rw [hdata]
    refine not_infix_go _ _ 'g' (by decide) (by decide) ?_
    simp only [List.mem_cons, List.mem_append, not_or]
    simp [ha, hb, hc, hd]
  have heq : buildGoInput config_ stm tc tc_2 =
      (match stm with
        | Color.WHITE =>
          "go wtime " ++ toString tc.time ++ " btime " ++ toString tc_2.time ++
            " winc " ++ toString tc.increment ++ " binc " ++ toString tc_2.increment
        | Color.BLACK =>
          "go wtime " ++ toString tc_2.time ++ " btime " ++ toString tc.time ++
            " winc " ++ toString tc_2.increment ++ " binc " ++ toString tc.increment) := by
    unfold buildGoInput
    apply String.ext
    cases stm <;>
      simp only [hn, hp, hf, ht, hi, hm, if_true, if_false, ne_eq, not_false_eq_true,
        not_true_eq_false, String.data_append, List.append_assoc, reduceCtorEq] <;>
      rfl
  refine ⟨heq, ?_⟩
  rw [heq]
  cases stm
  · exact hfree _ _ _ _
  · exact hfree _ _ _ _

/-- C3 at the input of the specification: own clock {time 60000, increment 1000, no moves
to go}, black to move; the opponent clock supplies wtime and winc. -/
theorem buildGoInput_clock_witness :
    (unlimitedConfig.limit.nodes = 0 ∧ unlimitedConfig.limit.plies = 0 ∧
      (⟨0, 60000, 1000, 0⟩ : TimeControl).fixed_time = 0 ∧
      (⟨0, 60000, 1000, 0⟩ : TimeControl).time ≠ 0 ∧
      (⟨0, 60000, 1000, 0⟩ : TimeControl).increment ≠ 0 ∧
      (⟨0, 60000, 1000, 0⟩ : TimeControl).moves = 0) ∧
    (buildGoInput unlimitedConfig Color.BLACK ⟨0, 60000, 1000, 0⟩ ⟨0, 45000, 500, 0⟩ =
        "go wtime " ++ toString (45000 : Int) ++ " btime " ++ toString (60000 : Int) ++
          " winc " ++ toString (500 : Int) ++ " binc " ++ toString (1000 : Int) ∧
      ¬ occursIn "movestogo"
        (buildGoInput unlimitedConfig Color.BLACK ⟨0, 60000, 1000, 0⟩ ⟨0, 45000, 500, 0⟩)) ∧
    buildGoInput unlimitedConfig Color.BLACK ⟨0, 60000, 1000, 0⟩ ⟨0, 45000, 500, 0⟩ =
      "go wtime 45000 btime 60000 winc 500 binc 1000" :=
  ⟨by decide,
    buildGoInput_clock unlimitedConfig Color.BLACK ⟨0, 60000, 1000, 0⟩ ⟨0, 45000, 500, 0⟩
      (by decide) (by decide) (by decide) (by decide) (by decide) (by decide),
    by decide⟩

/-- C10: for every move list the position command begins with exactly "position startpos"
when the fen argument is the literal "startpos", and with "position fen " followed by the
unchanged fen argument for every other fen; what follows is the "moves" section, which
does not depend on the fen. -/
theorem buildPositionInput_prefix (moves : List String) (fen : String)
    (h : fen ≠ "startpos") :
    buildPositionInput moves "startpos" = "position startpos" ++ movesSection moves ∧
      buildPositionInput moves fen = "position fen " ++ fen ++ movesSection moves := by
  constructor
  · rw [buildPositionInput_eq]; simp
  · rw [buildPositionInput_eq]; simp [h]

/-- C10 at a concrete input: a fen with six fields and two moves. -/
theorem buildPositionInput_prefix_witness :
    "8/8/8/8/8/8/8/K6k w - - 0 1" ≠ "startpos" ∧
    (buildPositionInput ["a1a2", "h1h2"] "startpos" =
        "position startpos" ++ movesSection ["a1a2", "h1h2"] ∧
      buildPositionInput ["a1a2", "h1h2"] "8/8/8/8/8/8/8/K6k w - - 0 1" =
        "position fen " ++ "8/8/8/8/8/8/8/K6k w - - 0 1" ++ movesSection ["a1a2", "h1h2"]) :=
  ⟨by decide, buildPositionInput_prefix ["a1a2", "h1h2"] _ (by decide)⟩

/-- C2: for the empty move list the position command is exactly the position prefix, with
no "moves" section; for a non-empty list of non-empty, space-free moves it is the prefix,
then " moves ", then a text whose split on single spaces is exactly the given list (same
moves, same order, same length). -/
theorem buildPositionInput_roundtrip (moves : List String) (fen : String)
    (hne : moves ≠ []) (hmoves : ∀ m ∈ moves, m ≠ "" ∧ ' ' ∉ m.data) :
    buildPositionInput [] fen =
        (if fen = "startpos" then "position startpos" else "position fen " ++ fen) ∧
      ∃ text : String,
        buildPositionInput moves fen = buildPositionInput [] fen ++ " moves " ++ text ∧
        str_utils.splitString text ' ' = moves ∧
        (str_utils.splitString text ' ').length = moves.length := by
  have h0 : buildPositionInput [] fen =
      (if fen = "startpos" then "position startpos" else "position fen " ++ fen) := by
    rw [buildPositionInput_eq]; simp [movesSection]
  have hsplit : str_utils.splitString (" ".intercalate moves) ' ' = moves := by
    obtain ⟨m, ms, rfl⟩ := List.exists_cons_of_ne_nil hne
    unfold str_utils.splitString
    simp only [String.intercalate]
    rw [intercalate_go_data, splitChars_spaced m ms hmoves]
    simp only [List.map_map]
    exact (List.map_congr_left (fun x _ => rfl)).trans (List.map_id _)
  refine ⟨h0, " ".intercalate moves, ?_, hsplit, by rw [hsplit]⟩
  rw [h0, buildPositionInput_eq]
  simp [movesSection, hne, String.append_assoc]

/-- C2 at a concrete input: three moves from the starting position. -/
theorem buildPositionInput_roundtrip_witness :
    ((["e2e4", "e7e5", "g1f3"] : List String) ≠ [] ∧
      ∀ m ∈ (["e2e4", "e7e5", "g1f3"] : List String), m ≠ "" ∧ ' ' ∉ m.data) ∧
    (buildPositionInput [] "startpos" =
        (if "startpos" = "startpos" then "position startpos"
         else "position fen " ++ "startpos") ∧
      ∃ text : String,
        buildPositionInput ["e2e4", "e7e5", "g1f3"] "startpos" =
          buildPositionInput [] "startpos" ++ " moves " ++ text ∧
        str_utils.splitString text ' ' = ["e2e4", "e7e5", "g1f3"] ∧
        (str_utils.splitString text ' ').length =
          (["e2e4", "e7e5", "g1f3"] : List String).length) :=
  ⟨by decide, buildPositionInput_roundtrip ["e2e4", "e7e5", "g1f3"] "startpos"
    (by decide) (by decide)⟩

/-- C5, the claim as stated fails: the last line "bestmove" has "bestmove" among its
tokens, yet `bestmove` throws and yields no move, because no token follows it. -/
theorem bestmove_counterexample :
    (engineWith ["info depth 1", "bestmove"]).output_ ≠ [] ∧
    "bestmove" ∈ str_utils.splitString "bestmove" ' ' ∧
    (engineWith ["info depth 1", "bestmove"]).bestmove =
      Except.error EngineError.bad_optional_access ∧
    (∀ move : String,
      (engineWith ["info depth 1", "bestmove"]).bestmove ≠ Except.ok move) :=
  ⟨by decide, by decide, rfl, fun move h => by
    have h2 : (engineWith ["info depth 1", "bestmove"]).bestmove =
        Except.error EngineError.bad_optional_access := rfl
    rw [h2] at h
    exact Except.noConfusion h⟩

/-- C5, amended: for a non-empty transcript, `bestmove` throws (and yields no move) when
the tokens of the last line do not contain "bestmove", and also when the first "bestmove"
is the final token of that line; otherwise it returns the token right after the first
"bestmove". These are the only outcomes, each happens only in its case, and two engines
whose transcripts end in the same line give the same result, whatever the earlier lines
are. -/
theorem bestmove_last_line (e : UciEngine) (earlier : List String) (line : String)
    (hout : e.output_ = earlier ++ [line]) :
    ("bestmove" ∉ str_utils.splitString line ' ' →
        e.bestmove = Except.error EngineError.bad_optional_access) ∧
      (∀ pre : List String,
        str_utils.splitString line ' ' = pre ++ ["bestmove"] →
        "bestmove" ∉ pre → e.bestmove = Except.error EngineError.bad_optional_access) ∧
      (∀ (pre post : List String) (move : String),
        str_utils.splitString line ' ' = pre ++ "bestmove" :: move :: post →
        "bestmove" ∉ pre → e.bestmove = Except.ok move) ∧
      (∀ move : String, e.bestmove = Except.ok move →
        ∃ pre post : List String,
          str_utils.splitString line ' ' = pre ++ "bestmove" :: move :: post ∧
          "bestmove" ∉ pre) ∧
      (e.bestmove = Except.error EngineError.bad_optional_access →
        "bestmove" ∉ str_utils.splitString line ' ' ∨
        ∃ pre : List String,
          str_utils.splitString line ' ' = pre ++ ["bestmove"] ∧ "bestmove" ∉ pre) ∧
      (e.bestmove = Except.error EngineError.bad_optional_access ∨
        ∃ move : String, e.bestmove = Except.ok move) ∧
      (∀ (other : UciEngine) (earlier2 : List String),
        other.output_ = earlier2 ++ [line] → other.bestmove = e.bestmove) := by
  have hb := bestmove_of_last e earlier line hout
  refine ⟨?_, ?_, ?_, ?_, ?_, ?_, ?_⟩
  · intro h
    rw [hb, findElement_absent _ _ h]
  · intro pre hs hp
    rw [hb, hs, findElement_last pre _ hp]
  · intro pre post move hs hp
    rw [hb, hs, findElement_first pre post _ move hp]
  · intro move hm
    rw [hb] at hm
    cases hf : str_utils.findElement (str_utils.splitString line ' ') "bestmove" with
    | none => rw [hf] at hm; exact Except.noConfusion hm
    | some found =>
      rw [hf] at hm
      have hfm : found = move := by injection hm
      subst hfm
      exact findElement_some _ _ _ hf
  · intro herr
    rw [hb] at herr
    cases hf : str_utils.findElement (str_utils.splitString line ' ') "bestmove" with
    | none => exact findElement_none _ _ hf
    | some found => rw [hf] at herr; exact Except.noConfusion herr
  · rw [hb]
    cases hf : str_utils.findElement (str_utils.splitString line ' ') "bestmove" with
    | none => exact Or.inl rfl
    | some found => exact Or.inr ⟨found, rfl⟩
  · intro other earlier2 ho
    rw [hb, bestmove_of_last other earlier2 line ho]

/-- C5, amended, at concrete inputs: a last line with a move after "bestmove", a last
line that ends in "bestmove", a last line without "bestmove", and an engine with other
earlier lines. -/
theorem bestmove_last_line_witness :
    (engineWith ["info depth 1", "bestmove e2e4 ponder e7e5"]).output_ =
        ["info depth 1"] ++ ["bestmove e2e4 ponder e7e5"] ∧
    (engineWith ["info depth 1", "bestmove e2e4 ponder e7e5"]).bestmove = Except.ok "e2e4" ∧
    (engineWith ["info depth 1", "info string bestmove"]).bestmove =
      Except.error EngineError.bad_optional_access ∧
    (engineWith ["bestmove d2d4", "info depth 7 score cp"]).bestmove =
      Except.error EngineError.bad_optional_access ∧
    (engineWith ["info depth 9", "info depth 10", "bestmove e2e4 ponder e7e5"]).bestmove =
      (engineWith ["info depth 1", "bestmove e2e4 ponder e7e5"]).bestmove :=
  ⟨rfl,
    (bestmove_last_line (engineWith ["info depth 1", "bestmove e2e4 ponder e7e5"])
      ["info depth 1"] "bestmove e2e4 ponder e7e5" rfl).2.2.1
      [] ["ponder", "e7e5"] "e2e4" (by decide) (by decide),
    (bestmove_last_line (engineWith ["info depth 1", "info string bestmove"])
      ["info depth 1"] "info string bestmove" rfl).2.1
      ["info", "string"] (by decide) (by decide),
    (bestmove_last_line (engineWith ["bestmove d2d4", "info depth 7 score cp"])
      ["bestmove d2d4"] "info depth 7 score cp" rfl).1 (by decide),
    (bestmove_last_line (engineWith ["info depth 1", "bestmove e2e4 ponder e7e5"])
      ["info depth 1"] "bestmove e2e4 ponder e7e5" rfl).2.2.2.2.2.2
      (engineWith ["info depth 9", "info depth 10", "bestmove e2e4 ponder e7e5"])
      ["info depth 9", "info depth 10"] rfl⟩

/-- C4, the claim as stated fails: the second-to-last line "info string cp 12 score cp 34"
holds the tokens "score", "cp", "34" in a row and the last line is "bestmove e2e4", yet
`lastScore` is 12, the number after the first "cp" of the line, not 34. -/
theorem lastScore_counterexample :
    2 ≤ (engineWith ["info string cp 12 score cp 34", "bestmove e2e4"]).output_.length ∧
    str_utils.splitString "bestmove e2e4" ' ' = ["bestmove", "e2e4"] ∧
    str_utils.splitString "info string cp 12 score cp 34" ' ' =
      ["info", "string", "cp", "12"] ++ ["score", "cp", toString (34 : Int)] ∧
    (engineWith ["info string cp 12 score cp 34", "bestmove e2e4"]).lastScoreType =
      Except.ok "cp" ∧
    (engineWith ["info string cp 12 score cp 34", "bestmove e2e4"]).bestmove =
      Except.ok "e2e4" ∧
    (engineWith ["info string cp 12 score cp 34", "bestmove e2e4"]).lastScore =
      Except.ok 12 ∧
    (engineWith ["info string cp 12 score cp 34", "bestmove e2e4"]).lastScore ≠
      Except.ok 34 :=
  ⟨by decide, by decide, by decide, rfl, rfl, rfl, by
    have h : (engineWith ["info string cp 12 score cp 34", "bestmove e2e4"]).lastScore =
        Except.ok 12 := rfl
    rw [h]
    intro hc
    injection hc with hc
    exact absurd hc (by decide)⟩

/-- C4, amended: for a transcript of at least two lines whose last line has the tokens
"bestmove", M, ... and whose second-to-last line has the tokens "score", K, V in a row,
where "score" and K do not occur earlier in that line, K is not "score" itself and V is the
decimal rendering of a number that fits `int`: `lastScoreType` returns K, `lastScore`
returns V and `bestmove` returns M. -/
theorem lastScore_first_occurrence (e : UciEngine) (earlier : List String)
    (info last : String) (pre post more : List String) (K M : String) (V : Int)
    (hout : e.output_ = earlier ++ [info, last])
    (hlen : e.output_.length < 2 ^ 64)
    (hlast : str_utils.splitString last ' ' = "bestmove" :: M :: more)
    (hinfo : str_utils.splitString info ' ' = pre ++ "score" :: K :: toString V :: post)
    (hscore : "score" ∉ pre) (hK : K ∉ pre) (hKs : K ≠ "score")
    (hlo : -(2 : Int) ^ 31 ≤ V) (hhi : V < (2 : Int) ^ 31) :
    e.lastScoreType = Except.ok K ∧ e.lastScore = Except.ok V ∧
      e.bestmove = Except.ok M := by
  have hinfo2 := lastInfo_of_two e earlier info last hout hlen
  have htype : e.lastScoreType = Except.ok K := by
    unfold UciEngine.lastScoreType
    rw [hinfo2, hinfo]
    simp only [findElement_first pre _ "score" K hscore, Option.getD_some]
  have hfind : str_utils.findElement (pre ++ "score" :: K :: toString V :: post) K =
      some (toString V) := by
    have h := findElement_first (pre ++ ["score"]) post K (toString V)
      (by simp only [List.mem_append, List.mem_singleton, not_or]; exact ⟨hK, hKs⟩)
    simpa [List.append_assoc] using h
  refine ⟨htype, ?_, ?_⟩
  · unfold UciEngine.lastScore
    rw [htype, hinfo2]
    simp only [str_utils.findElementInt, hinfo, hfind, stoi_toString V hlo hhi,
      Option.getD_some]
  · have hout2 : e.output_ = (earlier ++ [info]) ++ [last] := by rw [hout]; simp
    rw [bestmove_of_last e _ last hout2, hlast]
    simp [str_utils.findElement]

/-- C4, amended, at the input of the specification: "info depth 10 score cp 34" then
"bestmove e2e4" give "cp", 34 and "e2e4". -/
theorem lastScore_first_occurrence_witness :
    ((engineWith ["info depth 10 score cp 34", "bestmove e2e4"]).output_ =
        [] ++ ["info depth 10 score cp 34", "bestmove e2e4"] ∧
      (engineWith ["info depth 10 score cp 34", "bestmove e2e4"]).output_.length < 2 ^ 64 ∧
      str_utils.splitString "bestmove e2e4" ' ' = "bestmove" :: "e2e4" :: [] ∧
      str_utils.splitString "info depth 10 score cp 34" ' ' =
        ["info", "depth", "10"] ++ "score" :: "cp" :: toString (34 : Int) :: [] ∧
      "score" ∉ ["info", "depth", "10"] ∧ "cp" ∉ ["info", "depth", "10"] ∧
      "cp" ≠ "score" ∧ -(2 : Int) ^ 31 ≤ 34 ∧ (34 : Int) < (2 : Int) ^ 31) ∧
    ((engineWith ["info depth 10 score cp 34", "bestmove e2e4"]).lastScoreType =
        Except.ok "cp" ∧
      (engineWith ["info depth 10 score cp 34", "bestmove e2e4"]).lastScore = Except.ok 34 ∧
      (engineWith ["info depth 10 score cp 34", "bestmove e2e4"]).bestmove =
        Except.ok "e2e4") :=
  ⟨⟨rfl, by decide, by decide, by decide, by decide, by decide, by decide, by decide,
      by decide⟩,
    lastScore_first_occurrence (engineWith ["info depth 10 score cp 34", "bestmove e2e4"])
      [] "info depth 10 score cp 34" "bestmove e2e4" ["info", "depth", "10"] [] []
      "cp" "e2e4" 34 rfl (by decide) (by decide) (by decide) (by decide) (by decide)
      (by decide) (by decide) (by decide)⟩

/-- C6: for every threshold, when the process is not alive `isResponsive` returns false
and leaves the engine as it was (no operation is added to the channel trace, the stored
transcript is unchanged); when the process is alive it writes exactly "isready" (even if
the channel then fails), issues at most the one read for "readyok" with that threshold,
and, when the write is accepted and the read returns, the result is true exactly when
that read did not time out. -/
theorem isResponsive_spec (env : Env) (threshold : Int) (e : UciEngine) :
    (Process.isAlive env e.process = false →
        e.isResponsive env threshold = (Except.ok false, e) ∧
        (e.isResponsive env threshold).2.process.trace = e.process.trace ∧
        (e.isResponsive env threshold).2.output_ = e.output_) ∧
      (Process.isAlive env e.process = true →
        writes (e.isResponsive env threshold).2.process.trace =
          writes e.process.trace ++ ["isready\n"] ∧
        (∃ attempted : List (String × Int),
          (attempted = [] ∨ attempted = [("readyok", threshold)]) ∧
          reads (e.isResponsive env threshold).2.process.trace =
            reads e.process.trace ++ attempted) ∧
        (∀ r : ReadResult,
          env.accepts (e.process.trace ++ [Event.write "isready\n"]) = true →
          env.answer (pingTrace threshold e) = some r →
          e.isResponsive env threshold =
            (Except.ok (!r.timedOut), afterRead e (pingTrace threshold e) r) ∧
          reads (e.isResponsive env threshold).2.process.trace =
            reads e.process.trace ++ [("readyok", threshold)])) := by
  constructor
  · intro h
    rw [isResponsive_dead env threshold e h]
    exact ⟨rfl, rfl, rfl⟩
  · intro h
    cases hw : env.accepts (e.process.trace ++ [Event.write "isready\n"]) with
    | false =>
      rw [isResponsive_rejected env threshold e h hw]
      refine ⟨?_, ⟨[], Or.inl rfl, ?_⟩, ?_⟩
      · simp [writes_append, writes]
      · simp [reads_append, reads]
      · intro r hacc
        exact absurd hacc (by simp)
    | true =>
      cases hr : env.answer (pingTrace threshold e) with
      | none =>
        rw [isResponsive_failed env threshold e h hw hr]
        refine ⟨?_, ⟨[("readyok", threshold)], Or.inr rfl, ?_⟩, ?_⟩
        · simp [pingTrace, writes_append, writes]
        · simp [pingTrace, reads_append, reads]
        · intro r _ hans
          exact absurd hans (by simp)
      | some r0 =>
        rw [isResponsive_answered env threshold e r0 h hw hr]
        refine ⟨?_, ⟨[("readyok", threshold)], Or.inr rfl, ?_⟩, ?_⟩
        · simp [afterRead, pingTrace, writes_append, writes]
        · simp [afterRead, pingTrace, reads_append, reads]
        · intro r _ hans
          have hrr : r0 = r := Option.some.inj hans
          subst hrr
          refine ⟨rfl, ?_⟩
          simp [afterRead, pingTrace, reads_append, reads]

/-- C6 at concrete inputs: a process that has exited, one that answers at once and one
that never answers. -/
theorem isResponsive_spec_witness :
    ((engineWith ["bestmove e2e4"]).isResponsive deadEnv 1000 =
        (Except.ok false, engineWith ["bestmove e2e4"]) ∧
      ((engineWith ["bestmove e2e4"]).isResponsive deadEnv 1000).2.process.trace =
        (engineWith ["bestmove e2e4"]).process.trace ∧
      ((engineWith ["bestmove e2e4"]).isResponsive deadEnv 1000).2.output_ =
        (engineWith ["bestmove e2e4"]).output_) ∧
    writes ((engineWith []).isResponsive promptEnv 1000).2.process.trace =
      writes (engineWith []).process.trace ++ ["isready\n"] ∧
    ((engineWith []).isResponsive promptEnv 1000).1 = Except.ok true ∧
    ((engineWith []).isResponsive silentEnv 1000).1 = Except.ok false :=
  ⟨(isResponsive_spec deadEnv 1000 (engineWith ["bestmove e2e4"])).1 rfl,
    ((isResponsive_spec promptEnv 1000 (engineWith [])).2 rfl).1, rfl, rfl⟩

/-- C7: `startEngine` launches the process, writes "uci" and reads until "uciok" (the
trace starts with these three operations once the launch and the write succeed). It throws
the handshake error exactly when that read returned with the deadline passed and
`isResponsive(60000)` on the state after it returns false, which happens exactly when the
process is not alive or the "readyok" read timed out. When the "uciok" read returned in
time it goes straight to the option loop: no "isready" is written, the handshake error is
not thrown, and it returns normally when the channel accepts every write. -/
theorem startEngine_handshake (env : Env) (thr : Int) (e : UciEngine) :
    (env.launches (e.process.trace ++
          [Event.init (e.config_.dir ++ e.config_.cmd) e.config_.name]) = true →
        env.accepts (e.process.trace ++
          [Event.init (e.config_.dir ++ e.config_.cmd) e.config_.name,
            Event.write "uci\n"]) = true →
        uciTrace thr e <+: (e.startEngine env thr).2.process.trace) ∧
      ((e.startEngine env thr).1 = Except.error (EngineError.runtime_error pingWarning) ↔
        ∃ r : ReadResult, uciRead env thr e = some r ∧ r.timedOut = true ∧
          (UciEngine.isResponsive env 60000 (afterRead e (uciTrace thr e) r)).1 =
            Except.ok false) ∧
      (∀ r : ReadResult,
        ((UciEngine.isResponsive env 60000 (afterRead e (uciTrace thr e) r)).1 =
            Except.ok false ↔
          (Process.isAlive env (afterRead e (uciTrace thr e) r).process = false ∨
            ∃ r2 : ReadResult,
              env.accepts (uciTrace thr e ++ [Event.write "isready\n"]) = true ∧
              env.answer (pingTrace 60000 (afterRead e (uciTrace thr e) r)) = some r2 ∧
              r2.timedOut = true))) ∧
      (∀ r : ReadResult, uciRead env thr e = some r → r.timedOut = false →
        (∃ k, k ≤ e.config_.options.length ∧
          (e.startEngine env thr).2.process.trace =
            uciTrace thr e ++ (optionLines (e.config_.options.take k)).map Event.write) ∧
        "isready\n" ∉ (writes (e.startEngine env thr).2.process.trace).drop
          (writes e.process.trace).length ∧
        (e.startEngine env thr).1 ≠ Except.error (EngineError.runtime_error pingWarning) ∧
        ((∀ t, env.accepts t = true) → (e.startEngine env thr).1 = Except.ok ())) := by
  refine ⟨?_, ?_, ?_, ?_⟩
  · intro hl hw
    cases hr : env.answer (uciTrace thr e) with
    | none =>
      rw [startEngine_uci_failed env thr e hl hw hr]
    | some r =>
      have hu := (uciRead_eq_some env thr e r).2 ⟨hl, hw, hr⟩
      cases ht : r.timedOut with
      | false =>
        rw [startEngine_in_time env thr e r hu ht]
        obtain ⟨k, -, hstate, -⟩ := sendOptions_spec env e.config_.options
          (afterRead e (uciTrace thr e) r)
        rw [hstate]
        exact List.prefix_append _ _
      | true =>
        rw [startEngine_late env thr e r hu ht]
        cases ha : Process.isAlive env (afterRead e (uciTrace thr e) r).process with
        | false =>
          rw [isResponsive_dead env 60000 _ ha]
          exact List.prefix_refl _
        | true =>
          cases hw2 : env.accepts ((afterRead e (uciTrace thr e) r).process.trace ++
              [Event.write "isready\n"]) with
          | false =>
            rw [isResponsive_rejected env 60000 _ ha hw2]
            exact List.prefix_append _ _
          | true =>
            cases hr2 : env.answer (pingTrace 60000 (afterRead e (uciTrace thr e) r)) with
            | none =>
              rw [isResponsive_failed env 60000 _ ha hw2 hr2]
              exact ⟨_, rfl⟩
            | some r2 =>
              rw [isResponsive_answered env 60000 _ r2 ha hw2 hr2]
              cases ht2 : r2.timedOut with
              | true => exact ⟨_, rfl⟩
              | false =>
                simp only [Bool.not_false]
                obtain ⟨k, -, hstate, -⟩ := sendOptions_spec env
                  (afterRead (afterRead e (uciTrace thr e) r)
                    (pingTrace 60000 (afterRead e (uciTrace thr e) r)) r2).config_.options
                  (afterRead (afterRead e (uciTrace thr e) r)
                    (pingTrace 60000 (afterRead e (uciTrace thr e) r)) r2)
                rw [hstate]
                simp only [afterRead, pingTrace, List.append_assoc]
                exact List.prefix_append _ _
  · constructor
    · intro herr
      cases hu : uciRead env thr e with
      | none =>
        rw [(startEngine_no_read env thr e hu).1] at herr
        exact absurd herr (by simp)
      | some r =>
        cases ht : r.timedOut with
        | false =>
          rw [startEngine_in_time env thr e r hu ht] at herr
          exact absurd herr (sendOptions_not_runtime_error _ _ _ _)
        | true =>
          refine ⟨r, rfl, ht, ?_⟩
          rw [startEngine_late env thr e r hu ht] at herr
          rcases hres : UciEngine.isResponsive env 60000 (afterRead e (uciTrace thr e) r)
            with ⟨res, e2⟩
          rw [hres] at herr
          have hshape := (isResponsive_result env 60000 (afterRead e (uciTrace thr e) r)).2.1
          rw [hres] at hshape
          rcases hshape with h | h | h
          · exact h
          · simp only at h
            subst h
            exact absurd herr (sendOptions_not_runtime_error _ _ _ _)
          · simp only at h
            subst h
            exact absurd herr (by simp)
    · rintro ⟨r, hu, ht, hfalse⟩
      rw [startEngine_late env thr e r hu ht]
      rcases hres : UciEngine.isResponsive env 60000 (afterRead e (uciTrace thr e) r)
        with ⟨res, e2⟩
      rw [hres] at hfalse
      simp only at hfalse
      subst hfalse
      rfl
  · intro r
    exact (isResponsive_result env 60000 (afterRead e (uciTrace thr e) r)).1
  · intro r hu ht
    rw [startEngine_in_time env thr e r hu ht]
    obtain ⟨k, hk, hstate, hres⟩ := sendOptions_spec env e.config_.options
      (afterRead e (uciTrace thr e) r)
    refine ⟨⟨k, hk, by rw [hstate]; rfl⟩, ?_, sendOptions_not_runtime_error _ _ _ _,
      fun hall => sendOptions_accepting env hall _ _⟩
    rw [hstate]
    simp only [afterRead, uciTrace, writes_append, writes, writes_map_write,
      List.append_assoc, List.drop_left, List.append_nil]
    intro hmem
    have hmem2 : "isready\n" ∈ "uci\n" :: optionLines (List.take k e.config_.options) := by
      simpa [writes_map_write] using hmem
    rcases List.mem_cons.1 hmem2 with h | h
    · exact absurd h (by decide)
    · exact setoptionLine_ne_isready _ h

/-- C7 at concrete inputs: a process that never answers (handshake error), one that
answers "uciok" at once (no probe is sent) and one that only answers the probe. -/
theorem startEngine_handshake_witness :
    ((engineWith []).startEngine silentEnv 1000).1 =
        Except.error (EngineError.runtime_error pingWarning) ∧
    ((engineWith []).startEngine promptEnv 1000).1 ≠
        Except.error (EngineError.runtime_error pingWarning) ∧
    ((engineWith []).startEngine promptEnv 1000).1 = Except.ok () ∧
    writes ((engineWith []).startEngine promptEnv 1000).2.process.trace =
      ["uci\n", "setoption name Hash value 16\n", "setoption name Threads value 1\n"] ∧
    ((engineWith []).startEngine lazyEnv 1000).1 = Except.ok () ∧
    writes ((engineWith []).startEngine lazyEnv 1000).2.process.trace =
      ["uci\n", "isready\n", "setoption name Hash value 16\n",
        "setoption name Threads value 1\n"] :=
  ⟨((startEngine_handshake silentEnv 1000 (engineWith [])).2.1).2
      ⟨⟨[], true⟩, rfl, rfl, rfl⟩,
    ((startEngine_handshake promptEnv 1000 (engineWith [])).2.2.2
      ⟨["uciok"], false⟩ rfl rfl).2.2.1,
    rfl, by decide, rfl, by decide⟩

/-- C8: the lines `startEngine` writes are a handshake part ("uci", then possibly
"isready"; nothing when the launch fails) followed by the setoption lines of a prefix of
the configured options, in the configuration's order. When `startEngine` returns normally
the prefix is the whole option list: exactly one "setoption name <name> value <value>" line
per option, none skipped, duplicated or reordered. When it throws the handshake error the
prefix is empty: no setoption line is written. The configuration is left unchanged. -/
theorem startEngine_setoptions (env : Env) (thr : Int) (e : UciEngine) :
    ∃ (handshake : List String) (k : Nat),
      (handshake = [] ∨ handshake = ["uci\n"] ∨ handshake = ["uci\n", "isready\n"]) ∧
      k ≤ e.config_.options.length ∧
      writes (e.startEngine env thr).2.process.trace =
        writes e.process.trace ++ handshake ++ optionLines (e.config_.options.take k) ∧
      ((e.startEngine env thr).1 = Except.ok () →
        handshake ≠ [] ∧
        writes (e.startEngine env thr).2.process.trace =
          writes e.process.trace ++ handshake ++
            e.config_.options.map (fun option => setoptionLine option ++ "\n")) ∧
      ((e.startEngine env thr).1 = Except.error (EngineError.runtime_error pingWarning) →
        handshake ≠ [] ∧
        writes (e.startEngine env thr).2.process.trace =
          writes e.process.trace ++ handshake) := by
  have hloop : ∀ (e2 : UciEngine) (handshake : List String),
      e2.config_ = e.config_ → handshake ≠ [] →
      writes e2.process.trace = writes e.process.trace ++ handshake →
      ∃ k : Nat, k ≤ e.config_.options.length ∧
        writes (UciEngine.sendOptions env e2.config_.options e2).2.process.trace =
          writes e.process.trace ++ handshake ++ optionLines (e.config_.options.take k) ∧
        ((UciEngine.sendOptions env e2.config_.options e2).1 = Except.ok () →
          handshake ≠ [] ∧
          writes (UciEngine.sendOptions env e2.config_.options e2).2.process.trace =
            writes e.process.trace ++ handshake ++
              e.config_.options.map (fun option => setoptionLine option ++ "\n")) ∧
        ((UciEngine.sendOptions env e2.config_.options e2).1 =
            Except.error (EngineError.runtime_error pingWarning) →
          handshake ≠ [] ∧
          writes (UciEngine.sendOptions env e2.config_.options e2).2.process.trace =
            writes e.process.trace ++ handshake) := by
    intro e2 handshake hcfg hne hwr
    obtain ⟨k, hk, hstate, hres⟩ := sendOptions_spec env e2.config_.options e2
    have hw : writes (UciEngine.sendOptions env e2.config_.options e2).2.process.trace =
        writes e.process.trace ++ handshake ++ optionLines (e.config_.options.take k) := by
      rw [hstate]
      simp only [writes_append, writes_map_write, hwr, hcfg]
    refine ⟨k, hcfg ▸ hk, hw, ?_, ?_⟩
    · intro hok
      rcases hres with ⟨-, hk2⟩ | herr
      · refine ⟨hne, ?_⟩
        rw [hw, hk2, hcfg, List.take_length]
        rfl
      · rw [herr] at hok
        exact absurd hok (by simp)
    · intro herr
      exact absurd herr (sendOptions_not_runtime_error _ _ _ _)
  cases hu : uciRead env thr e with
  | none =>
    obtain ⟨herr, hw | hw⟩ := startEngine_no_read env thr e hu
    · exact ⟨[], 0, Or.inl rfl, Nat.zero_le _, by simp [hw, optionLines],
        fun h => absurd (herr ▸ h) (by simp), fun h => absurd (herr ▸ h) (by simp)⟩
    · exact ⟨["uci\n"], 0, Or.inr (Or.inl rfl), Nat.zero_le _, by simp [hw, optionLines],
        fun h => absurd (herr ▸ h) (by simp), fun h => absurd (herr ▸ h) (by simp)⟩
  | some r =>
    have hw0 : writes (uciTrace thr e) = writes e.process.trace ++ ["uci\n"] := by
      simp [uciTrace, writes_append, writes]
    cases ht : r.timedOut with
    | false =>
      rw [startEngine_in_time env thr e r hu ht]
      obtain ⟨k, hk, h1, h2, h3⟩ := hloop (afterRead e (uciTrace thr e) r) ["uci\n"] rfl
        (by simp) hw0
      exact ⟨["uci\n"], k, Or.inr (Or.inl rfl), hk, h1, h2, h3⟩
    | true =>
      rw [startEngine_late env thr e r hu ht]
      cases ha : Process.isAlive env (afterRead e (uciTrace thr e) r).process with
      | false =>
        rw [isResponsive_dead env 60000 _ ha]
        exact ⟨["uci\n"], 0, Or.inr (Or.inl rfl), Nat.zero_le _,
          by simpa [optionLines, afterRead] using hw0,
          fun h => absurd h (by simp),
          fun _ => ⟨by simp, by simpa [afterRead] using hw0⟩⟩
      | true =>
        have hw1 : writes (pingTrace 60000 (afterRead e (uciTrace thr e) r)) =
            writes e.process.trace ++ ["uci\n", "isready\n"] := by
          simp [pingTrace, afterRead, uciTrace, writes_append, writes]
        cases hw2 : env.accepts ((afterRead e (uciTrace thr e) r).process.trace ++
            [Event.write "isready\n"]) with
        | false =>
          rw [isResponsive_rejected env 60000 _ ha hw2]
          have hw3 : writes ((afterRead e (uciTrace thr e) r).process.trace ++
              [Event.write "isready\n"]) =
              writes e.process.trace ++ ["uci\n", "isready\n"] := by
            simp [afterRead, uciTrace, writes_append, writes]
          exact ⟨["uci\n", "isready\n"], 0, Or.inr (Or.inr rfl), Nat.zero_le _,
            by simpa [optionLines] using hw3,
            fun h => absurd h (by simp), fun h => absurd h (by simp)⟩
        | true =>
          cases hr2 : env.answer (pingTrace 60000 (afterRead e (uciTrace thr e) r)) with
          | none =>
            rw [isResponsive_failed env 60000 _ ha hw2 hr2]
            exact ⟨["uci\n", "isready\n"], 0, Or.inr (Or.inr rfl), Nat.zero_le _,
              by simpa [optionLines] using hw1,
              fun h => absurd h (by simp), fun h => absurd h (by simp)⟩
          | some r2 =>
            rw [isResponsive_answered env 60000 _ r2 ha hw2 hr2]
            cases ht2 : r2.timedOut with
            | true =>
              exact ⟨["uci\n", "isready\n"], 0, Or.inr (Or.inr rfl), Nat.zero_le _,
                by simpa [optionLines, afterRead] using hw1,
                fun h => absurd h (by simp),
                fun _ => ⟨by simp, by simpa [afterRead] using hw1⟩⟩
            | false =>
              obtain ⟨k, hk, h1, h2, h3⟩ := hloop
                (afterRead (afterRead e (uciTrace thr e) r)
                  (pingTrace 60000 (afterRead e (uciTrace thr e) r)) r2)
                ["uci\n", "isready\n"] rfl (by simp) hw1
              exact ⟨["uci\n", "isready\n"], k, Or.inr (Or.inr rfl), hk, h1, h2, h3⟩

/-- C8 at concrete inputs: the sample configuration (options Hash, then Threads) on a
process that answers at once, and on one that never answers. -/
theorem startEngine_setoptions_witness :
    writes ((engineWith []).startEngine promptEnv 1000).2.process.trace =
        ["uci\n", "setoption name Hash value 16\n", "setoption name Threads value 1\n"] ∧
    (∃ handshake : List String, handshake ≠ [] ∧
      writes ((engineWith []).startEngine promptEnv 1000).2.process.trace =
        writes (engineWith []).process.trace ++ handshake ++
          (engineWith []).config_.options.map (fun option => setoptionLine option ++ "\n")) ∧
    writes ((engineWith []).startEngine silentEnv 1000).2.process.trace =
      ["uci\n", "isready\n"] ∧
    (∃ handshake : List String, handshake ≠ [] ∧
      writes ((engineWith []).startEngine silentEnv 1000).2.process.trace =
        writes (engineWith []).process.trace ++ handshake) :=
  ⟨by decide,
    (startEngine_setoptions promptEnv 1000 (engineWith [])).elim
      (fun handshake h => h.elim (fun _ hk => ⟨handshake, hk.2.2.2.1 rfl⟩)),
    by decide,
    (startEngine_setoptions silentEnv 1000 (engineWith [])).elim
      (fun handshake h => h.elim (fun _ hk => ⟨handshake, hk.2.2.2.2 rfl⟩))⟩

/-- C11, the claim as stated fails: white to move with an own increment of 0 against a
black clock whose increment is 1000 gives "go wtime 60000 btime 60000"; black's increment
is non-zero, yet neither "binc 1000" nor "binc" occurs in the command. -/
theorem buildGoInput_increment_counterexample :
    (⟨0, 60000, 0, 0⟩ : TimeControl).fixed_time = 0 ∧
    (⟨0, 60000, 1000, 0⟩ : TimeControl).increment ≠ 0 ∧
    buildGoInput unlimitedConfig Color.WHITE ⟨0, 60000, 0, 0⟩ ⟨0, 60000, 1000, 0⟩ =
      "go wtime 60000 btime 60000" ∧
    ¬ occursIn ("binc " ++ toString (1000 : Int))
      (buildGoInput unlimitedConfig Color.WHITE ⟨0, 60000, 0, 0⟩ ⟨0, 60000, 1000, 0⟩) ∧
    ¬ occursIn "binc"
      (buildGoInput unlimitedConfig Color.WHITE ⟨0, 60000, 0, 0⟩ ⟨0, 60000, 1000, 0⟩) := by
  decide

/-- C11, amended: in the time-control branch (own fixed_time = 0) the increments are
guarded by the own clock's increment alone. When it is non-zero the command contains both
"winc <white increment>" and "binc <black increment>", white and black being own and
opponent according to the side to move; when it is zero neither "winc" nor "binc" occurs,
whatever the opponent's increment is. -/
theorem buildGoInput_increment (config_ : EngineConfiguration) (stm : Color)
    (tc tc_2 : TimeControl) (hf : tc.fixed_time = 0) :
    (tc.increment ≠ 0 →
        occursIn ("winc " ++ toString (if stm = Color.WHITE then tc else tc_2).increment)
          (buildGoInput config_ stm tc tc_2) ∧
        occursIn ("binc " ++ toString (if stm = Color.WHITE then tc_2 else tc).increment)
          (buildGoInput config_ stm tc tc_2)) ∧
      (tc.increment = 0 →
        ¬ occursIn "winc" (buildGoInput config_ stm tc tc_2) ∧
        ¬ occursIn "binc" (buildGoInput config_ stm tc tc_2)) := by
  constructor
  · intro hi
    obtain ⟨front, back, hcf⟩ := clockFields_increment stm tc tc_2 hf hi
    constructor
    · apply occursIn_of_eq _ _ ("go" ++ limitFields config_.limit ++ front ++ " ")
        (" binc " ++ toString (if stm = Color.WHITE then tc_2 else tc).increment ++ back)
      rw [buildGoInput_eq, hcf]
      apply String.ext
      simp [String.data_append, List.append_assoc]
    · apply occursIn_of_eq _ _ ("go" ++ limitFields config_.limit ++ front ++ " winc " ++
          toString (if stm = Color.WHITE then tc else tc_2).increment ++ " ") back
      rw [buildGoInput_eq, hcf]
      apply String.ext
      simp [String.data_append, List.append_assoc]
  · intro hi
    have hfree : 'c' ∉ (buildGoInput config_ stm tc tc_2).data := by
      rw [buildGoInput_eq]
      have h1 := not_mem_limitFields 'c' (by decide) (by decide) config_.limit
      have h2 := not_mem_clockFields_no_increment 'c' (by decide) (by decide) stm tc tc_2 hf hi
      simp only [String.data_append, List.mem_append, not_or]
      exact ⟨⟨by decide, h1⟩, h2⟩
    exact ⟨fun h => hfree (h.subset (by decide)), fun h => hfree (h.subset (by decide))⟩

/-- C11, amended, at concrete inputs: black to move with an own increment of 1000 against
a white clock without increment, and the clocks the other way round. -/
theorem buildGoInput_increment_witness :
    (⟨0, 60000, 1000, 0⟩ : TimeControl).fixed_time = 0 ∧
    (occursIn ("winc " ++ toString (0 : Int))
        (buildGoInput sampleConfig Color.BLACK ⟨0, 60000, 1000, 0⟩ ⟨0, 45000, 0, 0⟩) ∧
      occursIn ("binc " ++ toString (1000 : Int))
        (buildGoInput sampleConfig Color.BLACK ⟨0, 60000, 1000, 0⟩ ⟨0, 45000, 0, 0⟩)) ∧
    (¬ occursIn "winc"
        (buildGoInput sampleConfig Color.BLACK ⟨0, 45000, 0, 0⟩ ⟨0, 60000, 1000, 0⟩) ∧
      ¬ occursIn "binc"
        (buildGoInput sampleConfig Color.BLACK ⟨0, 45000, 0, 0⟩ ⟨0, 60000, 1000, 0⟩)) :=
  ⟨rfl,
    (buildGoInput_increment sampleConfig Color.BLACK ⟨0, 60000, 1000, 0⟩ ⟨0, 45000, 0, 0⟩
      rfl).1 (by decide),
    (buildGoInput_increment sampleConfig Color.BLACK ⟨0, 45000, 0, 0⟩ ⟨0, 60000, 1000, 0⟩
      rfl).2 rfl⟩

/-- C19: the position command for a longer history extends the one for the shorter
history: for a non-empty move list, appending a move appends " " and the move; for the
empty list the first move appends " moves " and the move; in both cases the command for
the shorter list is a prefix of the command for the longer one. -/
theorem buildPositionInput_extend (moves : List String) (move fen : String) :
    (moves ≠ [] →
        buildPositionInput (moves ++ [move]) fen =
          buildPositionInput moves fen ++ " " ++ move) ∧
      buildPositionInput [move] fen = buildPositionInput [] fen ++ " moves " ++ move ∧
      (buildPositionInput moves fen).data <+:
        (buildPositionInput (moves ++ [move]) fen).data := by
  have hone : buildPositionInput [move] fen =
      buildPositionInput [] fen ++ " moves " ++ move := by
    unfold buildPositionInput
    apply String.ext
    simp [String.data_append, List.append_assoc]
  have hmore : moves ≠ [] →
      buildPositionInput (moves ++ [move]) fen =
        buildPositionInput moves fen ++ " " ++ move := by
    intro hne
    unfold buildPositionInput
    apply String.ext
    simp [hne, List.foldl_append, String.data_append, List.append_assoc]
  refine ⟨hmore, hone, ?_⟩
  by_cases hne : moves = []
  · subst hne
    rw [List.nil_append, hone]
    exact ⟨(" moves " ++ move).data, by simp [String.data_append, List.append_assoc]⟩
  · rw [hmore hne]
    exact ⟨(" " ++ move).data, by simp [String.data_append, List.append_assoc]⟩

/-- C19 at a concrete input: the third ply of a game from the starting position. -/
theorem buildPositionInput_extend_witness :
    buildPositionInput (["e2e4", "e7e5"] ++ ["g1f3"]) "startpos" =
        buildPositionInput ["e2e4", "e7e5"] "startpos" ++ " " ++ "g1f3" ∧
    buildPositionInput ["e2e4", "e7e5", "g1f3"] "startpos" =
        "position startpos moves e2e4 e7e5 g1f3" ∧
    buildPositionInput ["e2e4"] "startpos" =
        buildPositionInput [] "startpos" ++ " moves " ++ "e2e4" :=
  ⟨(buildPositionInput_extend ["e2e4", "e7e5"] "g1f3" "startpos").1 (by decide),
    by decide,
    (buildPositionInput_extend [] "e2e4" "startpos").2.1⟩

/-- C12, the claim as stated fails: the second-to-last line "info string cp 55" has no
"score" token, `lastScoreType` is the default "cp", yet `lastScore` is 55, the number after
the "cp" token of the line, not 0; with "info string cp off" it throws. -/
theorem lastScore_default_counterexample :
    2 ≤ (engineWith ["info string cp 55", "bestmove e2e4"]).output_.length ∧
    "score" ∉ str_utils.splitString "info string cp 55" ' ' ∧
    (engineWith ["info string cp 55", "bestmove e2e4"]).lastScoreType = Except.ok "cp" ∧
    (engineWith ["info string cp 55", "bestmove e2e4"]).lastScore = Except.ok 55 ∧
    (engineWith ["info string cp 55", "bestmove e2e4"]).lastScore ≠ Except.ok 0 ∧
    (engineWith ["info string cp off", "bestmove e2e4"]).lastScore =
      Except.error (EngineError.conversion str_utils.ConversionError.invalid_argument) :=
  ⟨by decide, by decide, rfl, rfl, by
    have h : (engineWith ["info string cp 55", "bestmove e2e4"]).lastScore =
        Except.ok 55 := rfl
    rw [h]
    intro hc
    injection hc with hc
    exact absurd hc (by decide), rfl⟩

/-- C12, amended: for a transcript of at least two lines whose second-to-last line has no
"score" token, `lastScoreType` returns the default "cp" and does not fail; when that line
has no "cp" token either, `lastScore` returns 0 and does not fail. -/
theorem lastScore_default (e : UciEngine) (earlier : List String) (info last : String)
    (hout : e.output_ = earlier ++ [info, last]) (hlen : e.output_.length < 2 ^ 64)
    (hscore : "score" ∉ str_utils.splitString info ' ') :
    e.lastScoreType = Except.ok "cp" ∧
      ("cp" ∉ str_utils.splitString info ' ' → e.lastScore = Except.ok 0) := by
  have hinfo := lastInfo_of_two e earlier info last hout hlen
  have htype : e.lastScoreType = Except.ok "cp" := by
    unfold UciEngine.lastScoreType
    rw [hinfo]
    simp only [findElement_absent _ _ hscore, Option.getD_none]
  refine ⟨htype, fun hcp => ?_⟩
  unfold UciEngine.lastScore
  rw [htype, hinfo]
  simp only [str_utils.findElementInt, findElement_absent _ _ hcp, Option.getD_none]

/-- C12, amended, at a concrete input: an info line with neither a score nor a "cp"
token. -/
theorem lastScore_default_witness :
    ((engineWith ["info depth 4 nodes 812", "bestmove g1f3"]).output_ =
        [] ++ ["info depth 4 nodes 812", "bestmove g1f3"] ∧
      (engineWith ["info depth 4 nodes 812", "bestmove g1f3"]).output_.length < 2 ^ 64 ∧
      "score" ∉ str_utils.splitString "info depth 4 nodes 812" ' ' ∧
      "cp" ∉ str_utils.splitString "info depth 4 nodes 812" ' ') ∧
    (engineWith ["info depth 4 nodes 812", "bestmove g1f3"]).lastScoreType = Except.ok "cp" ∧
    (engineWith ["info depth 4 nodes 812", "bestmove g1f3"]).lastScore = Except.ok 0 :=
  ⟨⟨rfl, by decide, by decide, by decide⟩,
    (lastScore_default (engineWith ["info depth 4 nodes 812", "bestmove g1f3"]) []
      "info depth 4 nodes 812" "bestmove g1f3" rfl (by decide) (by decide)).1,
    (lastScore_default (engineWith ["info depth 4 nodes 812", "bestmove g1f3"]) []
      "info depth 4 nodes 812" "bestmove g1f3" rfl (by decide) (by decide)).2 (by decide)⟩

/-- C13: for every marker, threshold and previous transcript, when the channel read
returns the result `r`, `readEngine` returns exactly the lines of `r`, `output()` is those
lines (nothing of the previous transcript is left) and `timedout()` is the timed-out flag
of `r`; in particular after a read that timed out `timedout()` is true and `output()` is
the partial list of lines. -/
theorem readEngine_transcript (env : Env) (last_word : String) (timeout_threshold : Int)
    (e : UciEngine) (r : ReadResult)
    (h : env.answer (e.process.trace ++ [Event.read last_word timeout_threshold]) = some r) :
    Process.readProcess env last_word timeout_threshold e.process =
        (Except.ok r.lines,
          { trace := e.process.trace ++ [Event.read last_word timeout_threshold],
            timeout_ := r.timedOut }) ∧
      (e.readEngine env last_word timeout_threshold).1 = Except.ok r.lines ∧
      (e.readEngine env last_word timeout_threshold).2.output = r.lines ∧
      (e.readEngine env last_word timeout_threshold).2.timedout = r.timedOut ∧
      (r.timedOut = true →
        (e.readEngine env last_word timeout_threshold).2.timedout = true ∧
        (e.readEngine env last_word timeout_threshold).2.output = r.lines) := by
  have hp : Process.readProcess env last_word timeout_threshold e.process =
      (Except.ok r.lines,
        { trace := e.process.trace ++ [Event.read last_word timeout_threshold],
          timeout_ := r.timedOut }) := by
    simp [Process.readProcess, h]
  rw [readEngine_answered env last_word timeout_threshold e r h]
  refine ⟨hp, rfl, rfl, rfl, fun ht => ⟨?_, rfl⟩⟩
  simp [UciEngine.timedout, Process.timeout, afterRead, ht]

/-- C13 at concrete inputs: an engine that holds an old transcript reads from a process
that prints nothing before the deadline, and from one that answers at once. -/
theorem readEngine_transcript_witness :
    silentEnv.answer ((engineWith ["info depth 3", "bestmove a2a3"]).process.trace ++
        [Event.read "bestmove" 250]) = some ⟨[], true⟩ ∧
    ((engineWith ["info depth 3", "bestmove a2a3"]).readEngine silentEnv "bestmove" 250).2.output
      = [] ∧
    ((engineWith ["info depth 3", "bestmove a2a3"]).readEngine silentEnv "bestmove"
      250).2.timedout = true ∧
    ((engineWith ["info depth 3", "bestmove a2a3"]).readEngine promptEnv "bestmove" 250).2.output
      = ["bestmove"] :=
  ⟨rfl,
    (readEngine_transcript silentEnv "bestmove" 250
      (engineWith ["info depth 3", "bestmove a2a3"]) ⟨[], true⟩ rfl).2.2.1,
    ((readEngine_transcript silentEnv "bestmove" 250
      (engineWith ["info depth 3", "bestmove a2a3"]) ⟨[], true⟩ rfl).2.2.2.2 rfl).1,
    rfl⟩

/-- C14, the code at the failing input: for a transcript of exactly one line, the line
`bestmove` reads exists, but `lastInfo` computes the index `size() - 2` in the unsigned
`size_t`, which is 2^64 - 1 and not below the size of the transcript; `lastInfo`,
`lastScoreType` and `lastScore` read outside the transcript. -/
theorem lastInfo_single_line (e : UciEngine) (line : String) (h : e.output_ = [line]) :
    1 ≤ e.output_.length ∧
      e.output_.getLast? = some line ∧
      e.lastInfoIndex = 2 ^ 64 - 1 ∧
      ¬ e.lastInfoIndex < e.output_.length ∧
      e.lastInfo = Except.error EngineError.out_of_bounds ∧
      e.lastScoreType = Except.error EngineError.out_of_bounds ∧
      e.lastScore = Except.error EngineError.out_of_bounds := by
  have hidx : e.lastInfoIndex = 2 ^ 64 - 1 := by
    unfold UciEngine.lastInfoIndex
    rw [h]
    show (1 + 2 ^ 64 - 2) % 2 ^ 64 = 2 ^ 64 - 1
    norm_num
  have hnone : ([line] : List String)[2 ^ 64 - 1]? = none :=
    List.getElem?_eq_none (by show 1 ≤ 2 ^ 64 - 1; norm_num)
  have hinfo : e.lastInfo = Except.error EngineError.out_of_bounds := by
    unfold UciEngine.lastInfo
    rw [hidx, h, hnone]
  have htype : e.lastScoreType = Except.error EngineError.out_of_bounds := by
    unfold UciEngine.lastScoreType
    rw [hinfo]
  refine ⟨by rw [h]; simp, by rw [h]; rfl, hidx, by rw [hidx, h]; simp, hinfo, htype, ?_⟩
  unfold UciEngine.lastScore
  rw [hinfo, htype]

/-- C14 at the failing input: the one-line transcript "bestmove e2e4". -/
theorem lastInfo_single_line_witness :
    (engineWith ["bestmove e2e4"]).output_ = ["bestmove e2e4"] ∧
    (engineWith ["bestmove e2e4"]).bestmove = Except.ok "e2e4" ∧
    (engineWith ["bestmove e2e4"]).lastInfoIndex = 18446744073709551615 ∧
    (engineWith ["bestmove e2e4"]).lastInfo = Except.error EngineError.out_of_bounds :=
  ⟨rfl, rfl, (lastInfo_single_line (engineWith ["bestmove e2e4"]) "bestmove e2e4" rfl).2.2.1,
    (lastInfo_single_line (engineWith ["bestmove e2e4"]) "bestmove e2e4" rfl).2.2.2.2.1⟩

/-- C18: a channel failure is passed on and leaves no stale transcript: when the channel
read fails with an error, `readEngine` fails with that error and the stored transcript is
empty, whatever it held before; when the channel write fails, `writeEngine` fails with
that error; and `writeEngine` always hands the channel exactly one text, the input
followed by a newline. -/
theorem channel_failure_propagates (env : Env) (e : UciEngine) :
    (∀ (last_word : String) (timeout_threshold : Int) (err : EngineError) (p : Process),
        Process.readProcess env last_word timeout_threshold e.process = (Except.error err, p) →
        (e.readEngine env last_word timeout_threshold).1 = Except.error err ∧
        (e.readEngine env last_word timeout_threshold).2.output = []) ∧
      (∀ (input : String) (err : EngineError) (p : Process),
        Process.writeProcess env (input ++ "\n") e.process = (Except.error err, p) →
        (e.writeEngine env input).1 = Except.error err) ∧
      (∀ input : String,
        (e.writeEngine env input).2.process.trace =
          e.process.trace ++ [Event.write (input ++ "\n")]) := by
  refine ⟨?_, ?_, ?_⟩
  · intro last_word timeout_threshold err p h
    simp only [UciEngine.readEngine, h]
    refine ⟨?_, ?_⟩ <;> trivial
  · intro input err p h
    simp only [UciEngine.writeEngine, h]
  · intro input
    cases hw : env.accepts (e.process.trace ++ [Event.write (input ++ "\n")]) with
    | false => rw [writeEngine_rejected env input e hw]
    | true => rw [writeEngine_accepted env input e hw]

/-- C18 at a concrete input: an engine that holds a transcript reads from and writes to a
process that has exited. -/
theorem channel_failure_propagates_witness :
    Process.readProcess deadEnv "bestmove" 250 (engineWith ["bestmove a2a3"]).process =
      (Except.error EngineError.channel, ⟨[Event.read "bestmove" 250], false⟩) ∧
    ((engineWith ["bestmove a2a3"]).readEngine deadEnv "bestmove" 250).1 =
      Except.error EngineError.channel ∧
    ((engineWith ["bestmove a2a3"]).readEngine deadEnv "bestmove" 250).2.output = [] ∧
    ((engineWith ["bestmove a2a3"]).writeEngine deadEnv "go").1 =
      Except.error EngineError.channel ∧
    ((engineWith ["bestmove a2a3"]).writeEngine deadEnv "go").2.process.trace =
      (engineWith ["bestmove a2a3"]).process.trace ++ [Event.write ("go" ++ "\n")] :=
  ⟨rfl,
    ((channel_failure_propagates deadEnv (engineWith ["bestmove a2a3"])).1
      "bestmove" 250 EngineError.channel _ rfl).1,
    ((channel_failure_propagates deadEnv (engineWith ["bestmove a2a3"])).1
      "bestmove" 250 EngineError.channel _ rfl).2,
    (channel_failure_propagates deadEnv (engineWith ["bestmove a2a3"])).2.1
      "go" EngineError.channel ⟨[Event.write "go\n"], false⟩ rfl,
    (channel_failure_propagates deadEnv (engineWith ["bestmove a2a3"])).2.2 "go"⟩

/-- C15: `sendUciNewGame` writes "ucinewgame" first (the channel trace continues with that
write, and the only other line it may write is the "isready" of the probe); when the write
is accepted it returns the result of `isResponsive` called with the configured ping time
on the state after the write, so it returns true exactly when the process is alive after
the write, the "isready" write is accepted and the "readyok" read with the ping time
returned without timing out. -/
theorem sendUciNewGame_spec (env : Env) (e : UciEngine) :
    (∃ probe : List String, (probe = [] ∨ probe = ["isready\n"]) ∧
        writes (e.sendUciNewGame env).2.process.trace =
          writes e.process.trace ++ "ucinewgame\n" :: probe) ∧
      (e.process.trace ++ [Event.write "ucinewgame\n"] <+:
        (e.sendUciNewGame env).2.process.trace) ∧
      (env.accepts (e.process.trace ++ [Event.write "ucinewgame\n"]) = false →
        (e.sendUciNewGame env).1 = Except.error EngineError.channel) ∧
      (env.accepts (e.process.trace ++ [Event.write "ucinewgame\n"]) = true →
        e.sendUciNewGame env =
          UciEngine.isResponsive env e.ping_time_ (afterWrite e "ucinewgame") ∧
        ((e.sendUciNewGame env).1 = Except.ok true ↔
          (env.alive (e.process.trace ++ [Event.write "ucinewgame\n"]) = true ∧
            env.accepts (e.process.trace ++
              [Event.write "ucinewgame\n", Event.write "isready\n"]) = true ∧
            ∃ r : ReadResult,
              env.answer (e.process.trace ++ [Event.write "ucinewgame\n",
                Event.write "isready\n", Event.read "readyok" e.ping_time_]) = some r ∧
              r.timedOut = false))) := by
  cases hw : env.accepts (e.process.trace ++ [Event.write "ucinewgame\n"]) with
  | false =>
    have h1 : e.sendUciNewGame env =
        (Except.error EngineError.channel, afterWrite e "ucinewgame") := by
      simp only [UciEngine.sendUciNewGame, writeEngine_rejected env "ucinewgame" e hw]
      rfl
    rw [h1]
    exact ⟨⟨[], Or.inl rfl, by simp [afterWrite, writes_append, writes]⟩,
      List.prefix_refl _, fun _ => rfl, fun h => absurd h (by simp)⟩
  | true =>
    have h1 : e.sendUciNewGame env =
        UciEngine.isResponsive env e.ping_time_ (afterWrite e "ucinewgame") := by
      simp only [UciEngine.sendUciNewGame, writeEngine_accepted env "ucinewgame" e hw]
      rfl
    obtain ⟨added, htrace, hadded⟩ :=
      isResponsive_trace env e.ping_time_ (afterWrite e "ucinewgame")
    refine ⟨?_, ?_, fun h => absurd h (by simp), fun _ => ⟨h1, ?_⟩⟩
    · rw [h1, htrace]
      rcases hadded with ha | ha
      · exact ⟨[], Or.inl rfl, by simp [afterWrite, writes_append, writes, ha]⟩
      · exact ⟨["isready\n"], Or.inr rfl, by simp [afterWrite, writes_append, writes, ha]⟩
    · rw [h1, htrace]
      exact List.prefix_append _ _
    · rw [h1, isResponsive_true]
      simp [afterWrite, pingTrace, Process.isAlive, List.append_assoc]

/-- C15 at concrete inputs: a process that answers at once, one that never answers and
one that has exited. -/
theorem sendUciNewGame_spec_witness :
    ((engineWith []).sendUciNewGame promptEnv).1 = Except.ok true ∧
    writes ((engineWith []).sendUciNewGame promptEnv).2.process.trace =
      ["ucinewgame\n", "isready\n"] ∧
    ((engineWith []).sendUciNewGame silentEnv).1 = Except.ok false ∧
    ((engineWith []).sendUciNewGame deadEnv).1 = Except.error EngineError.channel :=
  ⟨(((sendUciNewGame_spec promptEnv (engineWith [])).2.2.2 rfl).2).2
      ⟨rfl, rfl, ⟨["readyok"], false⟩, rfl, rfl⟩,
    by decide, rfl,
    (sendUciNewGame_spec deadEnv (engineWith [])).2.2.1 rfl⟩

/-- C16: for every string s and prefix p, `startsWith s p` is true exactly when p is
non-empty and s is p followed by some rest; it is false for the empty prefix and false
whenever s does not begin with p, also when p occurs in s at a later position. -/
theorem startsWith_spec (s p : String) :
    (CMD.Options.startsWith s p = true ↔ (p ≠ "" ∧ ∃ rest : String, s = p ++ rest)) ∧
      CMD.Options.startsWith s "" = false ∧
      ((¬ ∃ rest : String, s = p ++ rest) → CMD.Options.startsWith s p = false) := by
  have hiff : CMD.Options.startsWith s p = true ↔
      (p ≠ "" ∧ ∃ rest : String, s = p ++ rest) := by
    unfold CMD.Options.startsWith
    by_cases hp : p.data = []
    · have hp2 : p = "" := String.ext hp
      simp [hp, hp2]
    · have hp2 : p ≠ "" := fun h => hp (by rw [h])
      have hne : p.data.isEmpty = false := by
        cases hd : p.data with
        | nil => exact absurd hd hp
        | cons c cs => rfl
      simp only [hne, Bool.false_eq_true, if_false, startsWithChars_iff, ne_eq, hp2,
        not_false_eq_true, true_and]
      constructor
      · rintro ⟨t, ht⟩
        exact ⟨String.mk t, String.ext (by simp [String.data_append, ht])⟩
      · rintro ⟨rest, hr⟩
        exact ⟨rest.data, by rw [hr]; simp [String.data_append]⟩
  refine ⟨hiff, by rfl, ?_⟩
  intro hno
  cases hs : CMD.Options.startsWith s p with
  | false => rfl
  | true => exact absurd (hiff.1 hs).2 hno

/-- C16 at the inputs of the test: on "-engine" the prefix "-" gives true; the empty
prefix, the prefix made of a slash and a dash, and the prefix "e" give false. -/
theorem startsWith_spec_witness :
    CMD.Options.startsWith "-engine" "-" = true ∧
    CMD.Options.startsWith "-engine" "" = false ∧
    CMD.Options.startsWith "-engine" "/-" = false ∧
    CMD.Options.startsWith "-engine" "e" = false :=
  ⟨(startsWith_spec "-engine" "-").1.2 ⟨by decide, "engine", by decide⟩,
    (startsWith_spec "-engine" "-").2.1, by decide, by decide⟩

/-- C17: for every string s and non-empty string n, `contains s n` is true whenever n
occurs in s as a contiguous run of characters, at the start, in the middle or at the
end. -/
theorem contains_of_occurs (s n : String) (hn : n ≠ "") (h : occursIn n s) :
    CMD.Options.contains s n = true ∧
      (∀ front back : String, s = front ++ n ++ back → CMD.Options.contains s n = true) := by
  have _ := hn
  have hc : CMD.Options.contains s n = true :=
    (containsChars_iff n.data s.data).2 h
  exact ⟨hc, fun _ _ _ => hc⟩

/-- C17 at the inputs of the test: "-engine" contains "-" and "e", and
"info string depth 10" contains "depth". -/
theorem contains_of_occurs_witness :
    (("-" : String) ≠ "" ∧ occursIn "-" "-engine") ∧
    CMD.Options.contains "-engine" "-" = true ∧
    CMD.Options.contains "-engine" "e" = true ∧
    CMD.Options.contains "info string depth 10" "depth" = true :=
  ⟨by decide, (contains_of_occurs "-engine" "-" (by decide) (by decide)).1,
    (contains_of_occurs "-engine" "e" (by decide) (by decide)).1,
    (contains_of_occurs "info string depth 10" "depth" (by decide) (by decide)).1⟩

end fast_chess
